import Mathlib

/-!
Verification development for the dEAduction core: the ServerQueue timeout and
scheduling logic and the ServerInterface message dispatch
(src/deaduction/pylib/server/init file), and the marked-pattern
expression-tree editor (src/deaduction/pylib/pattern_math_obj/
marked_pattern_math_object.py).

Python code is shallowly embedded: stateful methods become pure functions on
explicit state records; object identity becomes integer node ids in an arena;
exceptions become explicit error values.
-/

namespace Spec2Proof

/-! # Part 1: ServerQueue timeout and retry logic

Embedding of ServerQueue.task_with_timeout (server init file, lines 155-209)
and the class constants (lines 82-84).  The wrapped async function fct is
abstracted by a predicate giving, for each trial number and timeout value,
whether the awaited call completes within that timeout (trio
move_on_after cancelled_caught is its negation).  The observable behaviour
is the emitted trace of events: execution attempts of fct, invocations of
the cancellation callback, and emissions of the timeout-error LeanResponse.
-/

namespace Server

/-- ServerQueue.TIMEOUT (line 82). -/
def TIMEOUT : Nat := 10

/-- ServerQueue.STARTING_TIMEOUT (line 83). -/
def STARTING_TIMEOUT : Nat := 20

/-- ServerQueue.NB_TRIALS (line 84). -/
def NB_TRIALS : Nat := 2

/-- Observable events of one run of task_with_timeout.
trial t = the wrapped function is executed with timeout t;
cancelCallback = the per-task cancel_fct is invoked;
timeoutError = a LeanResponse with error_type 3 is emitted
on the timeout_signal. -/
inductive QEvent where
  | trial (timeout : Nat)
  | cancelCallback
  | timeoutError
deriving DecidableEq, Repr

/-- The while loop of task_with_timeout (lines 173-206).  The first argument
counts the remaining iterations (NB_TRIALS - nb), the second is the current
value of nb, the third the current actual_timeout.  responds nb t is true
when the nb-th execution of fct completes within timeout t
(cancelled_caught false); hasCancelFct models whether a cancel_fct was
supplied.  The TypeError branch (lines 195-206) duplicates the timeout
branch verbatim and is not modelled separately. -/
def task_with_timeout_loop (responds : Nat → Nat → Bool) (hasCancelFct : Bool) :
    Nat → Nat → Nat → List QEvent
  | 0, _, _ => []
  | remaining + 1, nb, actualTimeout =>
    -- nb += 1, then the task is processed under move_on_after(actual_timeout)
    let nb1 := nb + 1
    if responds nb1 actualTimeout then
      -- cancelled_caught is false: break out of the loop
      [QEvent.trial actualTimeout]
    else
      -- cancelled_caught: the timeout is doubled, then either the error is
      -- emitted (nb == NB_TRIALS, i.e. no iteration remains) or the
      -- cancellation callback is invoked and the task is retried
      QEvent.trial actualTimeout ::
      (if remaining = 0 then [QEvent.timeoutError]
       else (if hasCancelFct then [QEvent.cancelCallback] else []) ++
            task_with_timeout_loop responds hasCancelFct remaining nb1
              (2 * actualTimeout))

/-- ServerQueue.task_with_timeout (lines 155-209): the initial timeout is
STARTING_TIMEOUT for the very first task of the queue (started false),
TIMEOUT afterwards, and the loop runs at most NB_TRIALS trials. -/
def task_with_timeout (started : Bool) (responds : Nat → Nat → Bool)
    (hasCancelFct : Bool) : List QEvent :=
  let actualTimeout := if ¬started then STARTING_TIMEOUT else TIMEOUT
  task_with_timeout_loop responds hasCancelFct NB_TRIALS 0 actualTimeout

/-- Count of occurrences of an event in a trace. -/
def countEv (evs : List QEvent) (e : QEvent) : Nat :=
  (evs.filter (fun x => x = e)).length

/-- Count of trial events in a trace. -/
def countTrials (evs : List QEvent) : Nat :=
  (evs.filter (fun x => match x with | QEvent.trial _ => true | _ => false)).length

end Server

/-! # Part 2: ServerQueue scheduling (add_task / next_task)

Embedding of ServerQueue.add_task (lines 106-122), next_task (lines 124-138)
and the completion step at the end of task_with_timeout (line 209).
ServerQueue subclasses list; Python list.insert(0, x) puts x at the front and
list.pop() removes the last element, so the run state keeps the queue in the
same orientation (index 0 = front).  Tasks are abstracted to their submission
index and their on_top flag; running tasks are kept in a list in order to
prove (rather than build in) that at most one task runs at a time.
-/

namespace Queue

/-- A queued task: submission index (order of the add_task call that created
it) and the on_top flag it was added with. -/
structure Task where
  idx : Nat
  onTop : Bool
deriving DecidableEq, Repr

/-- State of a ServerQueue run. -/
structure SQState where
  /-- the list contents of the ServerQueue (index 0 = Python index 0). -/
  queue : List Task
  /-- tasks started (via nursery.start_soon) and not yet completed. -/
  running : List Task
  /-- the is_busy tag. -/
  is_busy : Bool
  /-- queue_ended: none = attribute still None, some b = a trio Event
  exists and b tells whether it has been set. -/
  queue_ended : Option Bool
  /-- all started tasks, in start order. -/
  started_trace : List Task
  /-- all completed tasks, in completion order. -/
  finished_trace : List Task
  /-- next submission index. -/
  next_idx : Nat
deriving DecidableEq, Repr

/-- ServerQueue.next_task (lines 124-138): if the queue is nonempty, pop the
last element (Python list.pop()) and start it; otherwise clear is_busy and
set the queue_ended event. -/
def next_task (st : SQState) : SQState :=
  match st.queue.getLast? with
  | some t =>
    { st with
      queue := st.queue.dropLast
      running := st.running ++ [t]
      started_trace := st.started_trace ++ [t] }
  | none =>
    -- queue_ended.set(); the attribute is never None here in the runs we
    -- model, since next_task is only reached after add_task created it
    { st with is_busy := false, queue_ended := some true }

/-- ServerQueue.add_task (lines 106-122).  Despite the log messages, the
code appends for on_top=True and inserts at index 0 otherwise; combined
with pop() from the end this makes the default FIFO and on_top priority.
If the queue is not busy, the task is started immediately. -/
def add_task (st : SQState) (onTop : Bool) : SQState :=
  let t : Task := ⟨st.next_idx, onTop⟩
  let st1 :=
    { st with
      next_idx := st.next_idx + 1
      queue := if onTop then st.queue ++ [t] else t :: st.queue }
  if ¬st1.is_busy then
    next_task { st1 with is_busy := true, queue_ended := some false }
  else
    st1

/-- Completion of the currently running task: at the end of
task_with_timeout (line 209), next_task is launched. -/
def task_finished (st : SQState) : SQState :=
  match st.running with
  | t :: rest =>
    next_task { st with running := rest, finished_trace := st.finished_trace ++ [t] }
  | [] => st

/-- External stimuli of the queue. -/
inductive SQOp where
  | add (onTop : Bool)
  | finish
deriving DecidableEq, Repr

/-- One step of the queue machine. -/
def sq_step (st : SQState) : SQOp → SQState
  | SQOp.add onTop => add_task st onTop
  | SQOp.finish => task_finished st

/-- Initial state: empty fresh queue (constructor, lines 86-104). -/
def sq_init : SQState :=
  ⟨[], [], false, none, [], [], 0⟩

/-- Run a list of stimuli from the initial state. -/
def sq_run (ops : List SQOp) : SQState :=
  ops.foldl sq_step sq_init

/-- The default (on_top=False) tasks of a list. -/
def defaults (l : List Task) : List Task :=
  l.filter (fun t => !t.onTop)

/-- Invariant of reachable queue states: at most one running task, is_busy
iff a task runs, an idle queue is empty, the start trace is the completion
trace followed by the running task, queued default tasks are ordered by
decreasing submission index from the front (so that pop() from the end is
FIFO), started default tasks are in submission order, every queued default
task is newer than every started one, all indices are below the submission
counter, and no index occurs twice among queued and started tasks. -/
def SQInv (st : SQState) : Prop :=
  st.running.length ≤ 1 ∧
  (st.is_busy ↔ ¬st.running = []) ∧
  (¬st.is_busy → st.queue = []) ∧
  st.started_trace = st.finished_trace ++ st.running ∧
  List.Pairwise (fun a b => b.idx < a.idx) (defaults st.queue) ∧
  List.Pairwise (fun a b => a.idx < b.idx) (defaults st.started_trace) ∧
  (∀ s ∈ defaults st.started_trace, ∀ q ∈ defaults st.queue, s.idx < q.idx) ∧
  (∀ t ∈ st.queue ++ st.started_trace, t.idx < st.next_idx) ∧
  ((st.queue ++ st.started_trace).map Task.idx).Nodup

theorem defaults_append (l1 l2 : List Task) :
    defaults (l1 ++ l2) = defaults l1 ++ defaults l2 :=
  List.filter_append l1 l2

theorem mem_defaults {t : Task} {l : List Task} :
    t ∈ defaults l ↔ t ∈ l ∧ t.onTop = false := by
  simp [defaults]

/-- Shape of add_task on a busy queue: the task is only queued. -/
theorem add_task_busy (st : SQState) (onTop : Bool) (hb : st.is_busy = true) :
    add_task st onTop =
      { st with next_idx := st.next_idx + 1,
                queue := if onTop then st.queue ++ [⟨st.next_idx, onTop⟩]
                         else ⟨st.next_idx, onTop⟩ :: st.queue } := by
  unfold add_task
  simp [hb]

/-- Shape of add_task on an idle queue with empty pending list: the new
task is started immediately. -/
theorem add_task_idle (st : SQState) (onTop : Bool) (hb : st.is_busy = false)
    (hq : st.queue = []) :
    add_task st onTop =
      { st with next_idx := st.next_idx + 1, queue := [],
                running := st.running ++ [⟨st.next_idx, onTop⟩],
                is_busy := true, queue_ended := some false,
                started_trace := st.started_trace ++ [⟨st.next_idx, onTop⟩] } := by
  unfold add_task next_task
  cases onTop <;> simp [hb, hq]

/-- Shape of next_task on an empty queue. -/
theorem next_task_empty (st : SQState) (hq : st.queue = []) :
    next_task st = { st with is_busy := false, queue_ended := some true } := by
  unfold next_task
  simp [hq]

/-- Shape of next_task on a nonempty queue: the last element is started. -/
theorem next_task_concat (st : SQState) (l2 : List Task) (q : Task)
    (hq : st.queue = l2 ++ [q]) :
    next_task st = { st with queue := l2, running := st.running ++ [q],
                             started_trace := st.started_trace ++ [q] } := by
  unfold next_task
  rw [hq]
  simp [List.getLast?_concat, List.dropLast_concat]

/-- The invariant holds initially. -/
theorem sq_inv_init : SQInv sq_init := by
  refine ⟨?_, ?_, ?_, ?_, ?_, ?_, ?_, ?_, ?_⟩ <;> simp [sq_init, defaults]

/-- The invariant is preserved by every step. -/
theorem sq_inv_step (st : SQState) (op : SQOp) (h : SQInv st) :
    SQInv (sq_step st op) := by
  obtain ⟨h1, h2, h3, h4, h5, h6, h7, h8, h9⟩ := h
  cases op with
  | add onTop =>
    show SQInv (add_task st onTop)
    by_cases hb : st.is_busy = true
    · -- busy: the task is only queued
      rw [add_task_busy st onTop hb]
      cases onTop with
      | true =>
        rw [if_pos rfl]
        refine ⟨h1, h2, fun hnb => absurd hb hnb, h4, ?_, h6, ?_, ?_, ?_⟩
        · show List.Pairwise _ (defaults (st.queue ++ [⟨st.next_idx, true⟩]))
          rw [defaults_append]
          have hnil : defaults [(⟨st.next_idx, true⟩ : Task)] = [] := by
            simp [defaults]
          rw [hnil, List.append_nil]
          exact h5
        · show ∀ s ∈ defaults st.started_trace,
            ∀ q ∈ defaults (st.queue ++ [⟨st.next_idx, true⟩]), s.idx < q.idx
          intro s hs q hq
          rw [defaults_append] at hq
          rcases List.mem_append.mp hq with hq2 | hq2
          · exact h7 s hs q hq2
          · simp [defaults] at hq2
        · show ∀ u ∈ (st.queue ++ [(⟨st.next_idx, true⟩ : Task)]) ++ st.started_trace,
            u.idx < st.next_idx + 1
          intro u hu
          rcases List.mem_append.mp hu with hq | hs
          · rcases List.mem_append.mp hq with hq2 | hq2
            · exact Nat.lt_succ_of_lt (h8 u (List.mem_append.mpr (Or.inl hq2)))
            · simp only [List.mem_singleton] at hq2
              simp [hq2]
          · exact Nat.lt_succ_of_lt (h8 u (List.mem_append.mpr (Or.inr hs)))
        · show (((st.queue ++ [(⟨st.next_idx, true⟩ : Task)]) ++ st.started_trace).map
            Task.idx).Nodup
          have hperm : List.Perm
              ((st.queue ++ [(⟨st.next_idx, true⟩ : Task)]) ++ st.started_trace)
              ((⟨st.next_idx, true⟩ : Task) :: (st.queue ++ st.started_trace)) := by
            have p1 := List.perm_append_singleton (⟨st.next_idx, true⟩ : Task)
              st.queue
            have p2 := List.Perm.append_right st.started_trace p1
            refine p2.trans ?_
            simp
          refine (List.Perm.nodup_iff (List.Perm.map Task.idx hperm)).mpr ?_
          simp only [List.map_cons, List.nodup_cons]
          refine ⟨?_, h9⟩
          intro hmem
          rcases List.mem_map.mp hmem with ⟨u, hu, hui⟩
          exact absurd (hui ▸ h8 u hu) (by simp)
      | false =>
        rw [if_neg (by simp)]
        refine ⟨h1, h2, fun hnb => absurd hb hnb, h4, ?_, h6, ?_, ?_, ?_⟩
        · show List.Pairwise _ (defaults (⟨st.next_idx, false⟩ :: st.queue))
          have hcons : defaults ((⟨st.next_idx, false⟩ : Task) :: st.queue) =
              (⟨st.next_idx, false⟩ : Task) :: defaults st.queue := by
            simp [defaults]
          rw [hcons]
          refine List.Pairwise.cons ?_ h5
          intro q hq
          exact h8 q (List.mem_append.mpr (Or.inl (mem_defaults.mp hq).1))
        · show ∀ s ∈ defaults st.started_trace,
            ∀ q ∈ defaults (⟨st.next_idx, false⟩ :: st.queue), s.idx < q.idx
          intro s hs q hq
          have hcons : defaults ((⟨st.next_idx, false⟩ : Task) :: st.queue) =
              (⟨st.next_idx, false⟩ : Task) :: defaults st.queue := by
            simp [defaults]
          rw [hcons] at hq
          rcases List.mem_cons.mp hq with hq2 | hq2
          · rw [hq2]
            exact h8 s (List.mem_append.mpr (Or.inr (mem_defaults.mp hs).1))
          · exact h7 s hs q hq2
        · show ∀ u ∈ ((⟨st.next_idx, false⟩ : Task) :: st.queue) ++ st.started_trace,
            u.idx < st.next_idx + 1
          intro u hu
          simp only [List.cons_append, List.mem_cons, List.mem_append] at hu
          rcases hu with hu2 | hu2 | hu2
          · simp [hu2]
          · exact Nat.lt_succ_of_lt (h8 u (List.mem_append.mpr (Or.inl hu2)))
          · exact Nat.lt_succ_of_lt (h8 u (List.mem_append.mpr (Or.inr hu2)))
        · show ((((⟨st.next_idx, false⟩ : Task) :: st.queue) ++
            st.started_trace).map Task.idx).Nodup
          simp only [List.cons_append, List.map_cons, List.nodup_cons]
          refine ⟨?_, h9⟩
          intro hmem
          rcases List.mem_map.mp hmem with ⟨u, hu, hui⟩
          exact absurd (hui ▸ h8 u hu) (by simp)
    · -- idle: the queue was empty; the new task is started immediately
      have hb2 : st.is_busy = false := by
        cases hbv : st.is_busy
        · rfl
        · exact absurd hbv hb
      have hqe : st.queue = [] := h3 (by simp [hb2])
      have hre : st.running = [] := by
        by_contra hr
        rw [h2.mpr hr] at hb2
        exact Bool.noConfusion hb2
      rw [add_task_idle st onTop hb2 hqe]
      have h9s : (st.started_trace.map Task.idx).Nodup := by
        rw [hqe] at h9
        simpa using h9
      refine ⟨?_, ?_, ?_, ?_, ?_, ?_, ?_, ?_, ?_⟩
      · show (st.running ++ [(⟨st.next_idx, onTop⟩ : Task)]).length ≤ 1
        simp [hre]
      · show true = true ↔ ¬st.running ++ [(⟨st.next_idx, onTop⟩ : Task)] = []
        simp
      · intro hc
        exact absurd rfl hc
      · show st.started_trace ++ [(⟨st.next_idx, onTop⟩ : Task)] =
          st.finished_trace ++ (st.running ++ [(⟨st.next_idx, onTop⟩ : Task)])
        rw [h4, hre]
        simp
      · show List.Pairwise _ (defaults [])
        simp [defaults]
      · show List.Pairwise _
          (defaults (st.started_trace ++ [(⟨st.next_idx, onTop⟩ : Task)]))
        rw [defaults_append]
        refine List.pairwise_append.mpr ⟨h6, ?_, ?_⟩
        · cases onTop <;> simp [defaults]
        · intro s hs x hx
          rcases mem_defaults.mp hx with ⟨hxa, _⟩
          simp only [List.mem_singleton] at hxa
          rw [hxa]
          exact h8 s (List.mem_append.mpr (Or.inr (mem_defaults.mp hs).1))
      · intro s hs q hq
        simp [defaults] at hq
      · show ∀ u ∈ [] ++ (st.started_trace ++ [(⟨st.next_idx, onTop⟩ : Task)]),
          u.idx < st.next_idx + 1
        intro u hu
        simp only [List.nil_append, List.mem_append, List.mem_singleton] at hu
        rcases hu with hu2 | hu2
        · exact Nat.lt_succ_of_lt (h8 u (List.mem_append.mpr (Or.inr hu2)))
        · simp [hu2]
      · show (([] ++ (st.started_trace ++ [(⟨st.next_idx, onTop⟩ : Task)])).map
          Task.idx).Nodup
        simp only [List.nil_append, List.map_append]
        refine (List.nodup_append).mpr ⟨h9s, by simp, ?_⟩
        intro a ha hmem
        simp only [List.map_cons, List.map_nil, List.mem_singleton] at hmem
        rcases List.mem_map.mp ha with ⟨u, hu, hui⟩
        have := h8 u (List.mem_append.mpr (Or.inr hu))
        rw [hui, hmem] at this
        exact absurd this (by simp)
  | finish =>
    show SQInv (task_finished st)
    cases hrun : st.running with
    | nil =>
      have : task_finished st = st := by
        unfold task_finished
        rw [hrun]
      rw [this]
      exact ⟨h1, h2, h3, h4, h5, h6, h7, h8, h9⟩
    | cons r rest =>
      have hrest : rest = [] := by
        have := h1
        rw [hrun] at this
        simpa using this
      subst hrest
      have hstep : task_finished st =
          next_task { st with running := [],
                              finished_trace := st.finished_trace ++ [r] } := by
        unfold task_finished
        rw [hrun]
      rw [hstep]
      have hbt : st.is_busy = true := h2.mpr (by simp [hrun])
      rcases List.eq_nil_or_concat st.queue with hqe | ⟨l2, q, hqc⟩
      · rw [next_task_empty _ (by simpa using hqe)]
        refine ⟨by simp, by simp, ?_, ?_, ?_, h6, ?_, ?_, ?_⟩
        · intro _
          simpa using hqe
        · show st.started_trace = (st.finished_trace ++ [r]) ++ []
          rw [h4, hrun]
          simp
        · show List.Pairwise _ (defaults st.queue)
          exact h5
        · intro s hs q hq
          rw [hqe] at hq
          simp [defaults] at hq
        · exact h8
        · exact h9
      · rw [List.concat_eq_append] at hqc
        rw [next_task_concat _ l2 q (by simpa using hqc)]
        have hq5 : List.Pairwise (fun a b => b.idx < a.idx)
            (defaults l2 ++ defaults [q]) := by
          rw [← defaults_append, ← hqc]
          exact h5
        refine ⟨by simp, ?_, ?_, ?_, ?_, ?_, ?_, ?_, ?_⟩
        · show st.is_busy = true ↔ ¬[] ++ [q] = []
          rw [hbt]
          simp
        · intro hc
          exact absurd hbt hc
        · show st.started_trace ++ [q] =
            (st.finished_trace ++ [r]) ++ ([] ++ [q])
          rw [h4, hrun]
          simp
        · exact (List.pairwise_append.mp hq5).1
        · show List.Pairwise _ (defaults (st.started_trace ++ [q]))
          rw [defaults_append]
          refine List.pairwise_append.mpr ⟨h6, ?_, ?_⟩
          · rcases q with ⟨qi, qb⟩
            cases qb <;> simp [defaults]
          · intro s hs x hx
            rcases mem_defaults.mp hx with ⟨hxa, hxb⟩
            simp only [List.mem_singleton] at hxa
            subst hxa
            refine h7 s hs x ?_
            rw [hqc, defaults_append]
            exact List.mem_append.mpr (Or.inr (mem_defaults.mpr ⟨by simp, hxb⟩))
        · intro s hs q2 hq2
          rw [defaults_append] at hs
          rcases List.mem_append.mp hs with hs2 | hs2
          · refine h7 s hs2 q2 ?_
            rw [hqc, defaults_append]
            exact List.mem_append.mpr (Or.inl hq2)
          · exact (List.pairwise_append.mp hq5).2.2 q2 hq2 s hs2
        · show ∀ u ∈ l2 ++ (st.started_trace ++ [q]), u.idx < st.next_idx
          intro u hu
          refine h8 u ?_
          rw [hqc]
          rcases List.mem_append.mp hu with hu2 | hu2
          · exact List.mem_append.mpr (Or.inl (List.mem_append.mpr (Or.inl hu2)))
          · rcases List.mem_append.mp hu2 with hu3 | hu3
            · exact List.mem_append.mpr (Or.inr hu3)
            · exact List.mem_append.mpr
                (Or.inl (List.mem_append.mpr (Or.inr hu3)))
        · show ((l2 ++ (st.started_trace ++ [q])).map Task.idx).Nodup
          have hperm : List.Perm (l2 ++ (st.started_trace ++ [q]))
              ((l2 ++ [q]) ++ st.started_trace) := by
            have p1 : List.Perm (st.started_trace ++ [q])
                ([q] ++ st.started_trace) := List.perm_append_comm
            refine (List.Perm.append_left l2 p1).trans ?_
            simp
          refine (List.Perm.nodup_iff (List.Perm.map Task.idx hperm)).mpr ?_
          rw [← hqc]
          exact h9

/-- The invariant holds in every reachable state. -/
theorem sq_inv_run (ops : List SQOp) : SQInv (sq_run ops) := by
  unfold sq_run
  induction ops using List.reverseRecOn with
  | nil => exact sq_inv_init
  | append_singleton ops op ih =>
    rw [List.foldl_append]
    exact sq_inv_step _ _ ih

/-- Task a is started strictly before task b. -/
def startedBefore (st : SQState) (a b : Task) : Prop :=
  ∃ i j, i < j ∧ st.started_trace.get? i = some a ∧
    st.started_trace.get? j = some b

/-- Relative-position invariant behind the on_top ordering property: either
a sits nearer to the pop end of the queue than b and neither has started,
or a has started and b has not, or a was started before b. -/
def RelP (st : SQState) (a b : Task) : Prop :=
  a.idx < st.next_idx ∧ b.idx < st.next_idx ∧
  ((∃ l1 l2 l3, st.queue = l1 ++ b :: (l2 ++ a :: l3)) ∧
     a ∉ st.started_trace ∧ b ∉ st.started_trace ∨
   a ∈ st.started_trace ∧ b ∉ st.started_trace ∨
   startedBefore st a b)

theorem get?_append_of_some {l l2 : List Task} {i : Nat} {a : Task}
    (h : l.get? i = some a) : (l ++ l2).get? i = some a := by
  have hi : i < l.length := by
    by_contra hni
    rw [List.get?_eq_none.mpr (le_of_not_lt hni)] at h
    cases h
  rw [List.get?_append hi]
  exact h

theorem get?_concat_self (l : List Task) (a : Task) :
    (l ++ [a]).get? l.length = some a := by
  rw [List.get?_append_right (le_refl _)]
  simp

theorem get?_of_mem_task {l : List Task} {a : Task} (h : a ∈ l) :
    ∃ i, i < l.length ∧ l.get? i = some a := by
  obtain ⟨i, hi⟩ := List.get_of_mem h
  exact ⟨i, i.isLt, by rw [List.get?_eq_get i.isLt, hi]⟩

theorem startedBefore_append {st st2 : SQState} {a b : Task} (l : List Task)
    (h : st2.started_trace = st.started_trace ++ l)
    (hs : startedBefore st a b) : startedBefore st2 a b := by
  obtain ⟨i, j, hij, hi, hj⟩ := hs
  exact ⟨i, j, hij, by rw [h]; exact get?_append_of_some hi,
    by rw [h]; exact get?_append_of_some hj⟩

/-- Two tasks at different positions of an index-Nodup list differ: the one
in the initial segment differs from the final element. -/
theorem ne_last_of_mem_of_nodup {X : List Task} {q u : Task}
    (hn : ((X ++ [q]).map Task.idx).Nodup) (hu : u ∈ X) : ¬u = q := by
  intro he
  rw [List.map_append] at hn
  have hdis := (List.nodup_append.mp hn).2.2
  have hmem : u.idx ∈ X.map Task.idx := List.mem_map.mpr ⟨u, hu, rfl⟩
  have h2 : u.idx ∉ [q].map Task.idx := hdis hmem
  rw [he] at h2
  exact h2 (by simp)

/-- RelP is preserved by every queue step. -/
theorem relp_step (st : SQState) (op : SQOp) (a b : Task) (hinv : SQInv st)
    (h : RelP st a b) : RelP (sq_step st op) a b := by
  obtain ⟨h1, h2, h3, h4, h5, h6, h7, h8, h9⟩ := hinv
  obtain ⟨ha, hb, hcase⟩ := h
  cases op with
  | add onTop =>
    show RelP (add_task st onTop) a b
    by_cases hbusy : st.is_busy = true
    · rw [add_task_busy st onTop hbusy]
      refine ⟨Nat.lt_succ_of_lt ha, Nat.lt_succ_of_lt hb, ?_⟩
      rcases hcase with ⟨⟨l1, l2, l3, hq⟩, has, hbs⟩ | hc | hc
      · left
        refine ⟨?_, has, hbs⟩
        cases onTop with
        | true =>
          exact ⟨l1, l2, l3 ++ [⟨st.next_idx, true⟩], by
            show st.queue ++ [(⟨st.next_idx, true⟩ : Task)] = _
            rw [hq]; simp⟩
        | false =>
          exact ⟨⟨st.next_idx, false⟩ :: l1, l2, l3, by
            show (⟨st.next_idx, false⟩ : Task) :: st.queue = _
            rw [hq]; simp⟩
      · exact Or.inr (Or.inl hc)
      · exact Or.inr (Or.inr hc)
    · have hb2 : st.is_busy = false := by
        cases hbv : st.is_busy
        · rfl
        · exact absurd hbv hbusy
      have hqe : st.queue = [] := h3 (by simp [hb2])
      rw [add_task_idle st onTop hb2 hqe]
      refine ⟨Nat.lt_succ_of_lt ha, Nat.lt_succ_of_lt hb, ?_⟩
      rcases hcase with ⟨⟨l1, l2, l3, hq⟩, has, hbs⟩ | ⟨hain, hbnot⟩ | hc
      · rw [hqe] at hq
        simp at hq
      · refine Or.inr (Or.inl ⟨List.mem_append.mpr (Or.inl hain), ?_⟩)
        intro hmem
        rcases List.mem_append.mp hmem with hm | hm
        · exact hbnot hm
        · simp only [List.mem_singleton] at hm
          rw [hm] at hb
          simp at hb
      · exact Or.inr (Or.inr
          (startedBefore_append [⟨st.next_idx, onTop⟩] rfl hc))
  | finish =>
    show RelP (task_finished st) a b
    cases hrun : st.running with
    | nil =>
      have heq : task_finished st = st := by
        unfold task_finished
        rw [hrun]
      rw [heq]
      exact ⟨ha, hb, hcase⟩
    | cons r rest =>
      have hstep : task_finished st =
          next_task { st with running := rest,
                              finished_trace := st.finished_trace ++ [r] } := by
        unfold task_finished
        rw [hrun]
      rw [hstep]
      rcases List.eq_nil_or_concat st.queue with hqe | ⟨lq, q, hqc⟩
      · rw [next_task_empty _ (by simpa using hqe)]
        exact ⟨ha, hb, hcase⟩
      · rw [List.concat_eq_append] at hqc
        rw [next_task_concat _ lq q (by simpa using hqc)]
        have hqnodup : ((st.queue).map Task.idx).Nodup :=
          h9.sublist (List.Sublist.map Task.idx
            (List.sublist_append_left st.queue st.started_trace))
        refine ⟨ha, hb, ?_⟩
        rcases hcase with ⟨⟨l1, l2, l3, hq⟩, has, hbs⟩ | ⟨hain, hbnot⟩ | hc
        · rcases List.eq_nil_or_concat l3 with h3e | ⟨l3h, last, h3c⟩
          · -- a was the last queued task: it is started now
            rw [h3e] at hq
            have hq2 : (l1 ++ b :: l2) ++ [a] = lq ++ [q] := by
              have hqr : st.queue = (l1 ++ b :: l2) ++ [a] := by
                rw [hq]; simp
              rw [← hqr, hqc]
            have hlen : (l1 ++ b :: l2).length = lq.length := by
              have := congrArg List.length hq2
              simp [List.length_append] at this ⊢
              omega
            obtain ⟨hl, ha2⟩ := List.append_inj hq2 hlen
            have haq : a = q := by simpa using ha2
            have hnodup2 : (((l1 ++ b :: l2) ++ [a]).map Task.idx).Nodup := by
              rw [hq2, ← hqc]
              exact hqnodup
            have hba : ¬b = a :=
              ne_last_of_mem_of_nodup hnodup2 (by simp)
            refine Or.inr (Or.inl ⟨?_, ?_⟩)
            · exact List.mem_append.mpr (Or.inr (by simp [haq]))
            · intro hmem
              rcases List.mem_append.mp hmem with hm | hm
              · exact hbs hm
              · simp only [List.mem_singleton] at hm
                exact hba (hm.trans haq.symm)
          · -- another task was popped; a and b remain queued
            rw [List.concat_eq_append] at h3c
            rw [h3c] at hq
            have hq2 : (l1 ++ b :: (l2 ++ a :: l3h)) ++ [last] = lq ++ [q] := by
              have hqr : st.queue = (l1 ++ b :: (l2 ++ a :: l3h)) ++ [last] := by
                rw [hq]; simp
              rw [← hqr, hqc]
            have hlen : (l1 ++ b :: (l2 ++ a :: l3h)).length = lq.length := by
              have := congrArg List.length hq2
              simp [List.length_append] at this ⊢
              omega
            obtain ⟨hl, hlast⟩ := List.append_inj hq2 hlen
            have hlq : last = q := by simpa using hlast
            have hnodup2 :
                (((l1 ++ b :: (l2 ++ a :: l3h)) ++ [last]).map Task.idx).Nodup := by
              rw [hq2, ← hqc]
              exact hqnodup
            refine Or.inl ⟨⟨l1, l2, l3h, by rw [← hl]⟩, ?_, ?_⟩
            · intro hmem
              rcases List.mem_append.mp hmem with hm | hm
              · exact has hm
              · simp only [List.mem_singleton] at hm
                exact ne_last_of_mem_of_nodup hnodup2 (by simp)
                  (hm.trans hlq.symm)
            · intro hmem
              rcases List.mem_append.mp hmem with hm | hm
              · exact hbs hm
              · simp only [List.mem_singleton] at hm
                exact ne_last_of_mem_of_nodup hnodup2 (by simp)
                  (hm.trans hlq.symm)
        · by_cases hbq : b = q
          · -- b is started only now, after a
            obtain ⟨i, hilt, hi⟩ := get?_of_mem_task hain
            refine Or.inr (Or.inr ⟨i, st.started_trace.length, hilt, ?_, ?_⟩)
            · exact get?_append_of_some hi
            · rw [hbq]
              exact get?_concat_self _ _
          · refine Or.inr (Or.inl ⟨List.mem_append.mpr (Or.inl hain), ?_⟩)
            intro hmem
            rcases List.mem_append.mp hmem with hm | hm
            · exact hbnot hm
            · simp only [List.mem_singleton] at hm
              exact hbq hm
        · exact Or.inr (Or.inr (startedBefore_append [q] rfl hc))

/-- RelP and the main invariant are preserved along any continuation. -/
theorem relp_run (ops : List SQOp) (a b : Task) :
    ∀ st : SQState, SQInv st → RelP st a b →
      RelP (ops.foldl sq_step st) a b := by
  induction ops with
  | nil => exact fun st _ h => h
  | cons op rest ih =>
    intro st hinv h
    exact ih (sq_step st op) (sq_inv_step st op hinv) (relp_step st op a b hinv h)

/-- When b has started, RelP yields the ordering conclusion. -/
theorem relp_sound (st : SQState) (a b : Task) (h : RelP st a b)
    (hbs : b ∈ st.started_trace) : startedBefore st a b := by
  rcases h.2.2 with ⟨_, _, hbn⟩ | ⟨_, hbn⟩ | hc
  · exact absurd hbs hbn
  · exact absurd hbs hbn
  · exact hc

end Queue

/-! # Part 3: ServerInterface message dispatch

Embedding of ServerInterface.__on_lean_message (lines 440-548),
__check_request_complete (lines 434-438) and __filter_error (lines 629-669).
The per-request accumulation methods (store_hypo_analysis,
store_targets_analysis, process_effective_code, is_complete,
set_proof_received) live in high_level_request.py which is not part of the
sources; they are abstracted as arbitrary functions on an abstract request
state, so every theorem below holds for any implementation of them.
Python exceptions are modelled by returning the state reached so far
together with an optional exception message.
-/

namespace Dispatch

/-- Message severity (lean.response.Message.Severity). -/
inductive Severity where
  | error
  | warning
  | info
deriving DecidableEq, Repr

/-- An incoming Lean server message: sequence number, severity, text and
position line. -/
structure LMsg where
  seq_num : Nat
  severity : Severity
  text : String
  pos_line : Nat
deriving DecidableEq, Repr

/-- The magic message prefixes (lines 62-64). -/
def LEAN_UNRESOLVED_TEXT : String := "tactic failed, there are unsolved goals"

/-- See LEAN_UNRESOLVED_TEXT. -/
def LEAN_NOGOALS_TEXT : String := "tactic failed, there are no goals to be solved"

/-- See LEAN_UNRESOLVED_TEXT. -/
def LEAN_USES_SORRY : String := " uses sorry"

/-- Abstract callbacks of HighLevelServerRequest (high_level_request.py is
outside the sources; the dispatcher only ever feeds them the message and the
state of one request). ReqState is a type parameter of the whole model. -/
structure ReqCallbacks (ReqState : Type) where
  store_hypo_analysis : String → Nat → ReqState → ReqState
  store_targets_analysis : String → Nat → ReqState → ReqState
  process_effective_code : LMsg → ReqState → ReqState
  is_complete : ReqState → Bool
  set_proof_received : ReqState → ReqState
  /-- whether request.request_type == the ProofStep string. -/
  is_proof_step : ReqState → Bool

/-- State of the ServerInterface as seen by the dispatcher. -/
structure SIState (ReqState : Type) where
  /-- pending_requests: map from seq_num to request state. -/
  pending_requests : List (Nat × ReqState)
  /-- the error_send memory channel contents. -/
  error_channel : List LMsg
  /-- whether self.lean_file is set (an exercise is being processed). -/
  has_lean_file : Bool

/-- Look up a pending request. -/
def getReq (st : SIState R) (s : Nat) : Option R :=
  (st.pending_requests.find? (fun p => p.1 = s)).map (fun p => p.2)

/-- Update the pending request registered under s, if any. -/
def updReq (st : SIState R) (s : Nat) (f : R → R) : SIState R :=
  { st with pending_requests :=
      st.pending_requests.map (fun p => if p.1 = s then (p.1, f p.2) else p) }

/-- Remove the pending request registered under s
(pending_requests.pop(request_seq_num), line 438). -/
def popReq (st : SIState R) (s : Nat) : SIState R :=
  { st with pending_requests :=
      st.pending_requests.filter (fun p => ¬(p.1 = s)) }

/-- ServerInterface.__check_request_complete (lines 434-438). -/
def check_request_complete (cb : ReqCallbacks R) (st : SIState R) (s : Nat) :
    SIState R :=
  match getReq st s with
  | some req =>
    if cb.is_complete req then popReq (updReq st s cb.set_proof_received) s
    else st
  | none => st

/-- ServerInterface.__filter_error (lines 629-669) restricted to its live
code: for a ProofStep request, messages starting with the no-goals or
unsolved-goals texts are ignored; any other error text is pushed on the
error channel and then self.proof_receive_done.set() is executed, but the
proof_receive_done attribute no longer exists (its initialisation, line
300, is commented out), so an AttributeError is raised after the push. -/
def filter_error (cb : ReqCallbacks R) (st : SIState R) (msg : LMsg)
    (req : R) : SIState R × Option String :=
  if cb.is_proof_step req then
    if msg.text.startsWith LEAN_NOGOALS_TEXT then (st, none)
    else if msg.text.startsWith LEAN_UNRESOLVED_TEXT then (st, none)
    else
      ({ st with error_channel := st.error_channel ++ [msg] },
       some "AttributeError: ServerInterface object has no attribute proof_receive_done")
  else (st, none)

/-- ServerInterface.__on_lean_message (lines 440-548).  Returns the state
reached together with the exception raised, if any (mutations made before a
raise persist, as in Python).

The unknown-seq_num branch (lines 466-470) is modelled faithfully: the
warning it tries to log interpolates self.pending_requests.key(), and dict
objects have keys() but no key(), so an AttributeError is raised while the
f-string is evaluated, before the return statement. -/
def on_lean_message (cb : ReqCallbacks R) (st : SIState R) (msg : LMsg) :
    SIState R × Option String :=
  -- self.__add_time_to_cancel_scope() only moves the cancel-scope deadline
  -- of the server queue; it does not touch dispatcher state.
  if (st.pending_requests.find? (fun p => p.1 = msg.seq_num)).isSome then
    -- request = self.pending_requests[msg.seq_num]
    -- line 489 reads self.lean_file.last_line_of_inner_content
    if ¬st.has_lean_file then
      (st, some "AttributeError: NoneType object has no attribute last_line_of_inner_content")
    else
      match getReq st msg.seq_num with
      | none => (st, none)  -- unreachable: membership was just tested
      | some req =>
        let step :
            SIState R × Option String :=
          match msg.severity with
          | Severity.error =>
            filter_error cb st msg req
          | Severity.warning => (st, none)
          | Severity.info =>
            if msg.text.startsWith "context #:" then
              (updReq st msg.seq_num (cb.store_hypo_analysis msg.text msg.pos_line), none)
            else if msg.text.startsWith "targets #:" then
              (updReq st msg.seq_num (cb.store_targets_analysis msg.text msg.pos_line), none)
            else if msg.text.startsWith "EFFECTIVE CODE" then
              (if cb.is_proof_step req then
                 updReq st msg.seq_num (cb.process_effective_code msg)
               else st, none)
            else (st, none)
        match step with
        | (st1, some e) => (st1, some e)
        | (st1, none) => (check_request_complete cb st1 msg.seq_num, none)
  else
    -- log.warning interpolating self.pending_requests.key(): AttributeError
    (st, some "AttributeError: dict object has no attribute key")

end Dispatch

/-! # Part 4: the marked pattern expression tree

Embedding of marked_pattern_math_object.py.  Python objects live in an
arena: every MarkedPatternMathObject is a numbered node, object identity
(the `is` operator, list membership, mutation through references) becomes
id equality and arena update.  A node records the attributes the claims
depend on:

- node: the own node kind string (MathObject._node);
- value: the own value attribute (used by NUMBER nodes);
- isMetavar: whether the object is a MarkedMetavar;
- assigned: the assigned_math_object (a node id, none when unassigned);
- cursorPos: cursor_pos (none = unmarked; -1 is the virtual beginning);
- children: the own _children ids;
- shape: the display shape.  This models the latex_shape mechanism, which
  lives in MathDisplay / PatternMathObject outside the sources.  Modelled
  from the spec: the display shape of a node is a fixed ordered list
  mixing literal tokens (entries none, where the node itself appears in
  ordered_children) and child indices (entries some k, standing for the
  k-th child).  MarkedMetavar delegates node, info and children to its
  assigned object, so all shape and children views resolve through the
  assignment chain first.

Recursive traversals take an explicit fuel argument; any fuel larger than
the length of the assignment and child chains computes the same value, and
the canonical fuel (arena length + 1) suffices for acyclic arenas.
-/

namespace Marked

/-- One MarkedPatternMathObject in the arena. -/
structure Node where
  node : String
  value : Option String
  isMetavar : Bool
  assigned : Option Nat
  cursorPos : Option Int
  children : List Nat
  shape : List (Option Nat)
deriving DecidableEq, Repr

/-- The arena: an association list from ids to nodes. -/
abbrev Arena := List (Nat × Node)

/-- Look up a node. -/
def getN (ar : Arena) (i : Nat) : Option Node :=
  (ar.find? (fun p => p.1 = i)).map (fun p => p.2)

/-- Update the node registered under id i (mutation through a reference). -/
def setN (ar : Arena) (i : Nat) (f : Node → Node) : Arena :=
  ar.map (fun p => if p.1 = i then (p.1, f p.2) else p)

/-- Fuel that bounds every chain in an acyclic arena. -/
def arenaFuel (ar : Arena) : Nat :=
  ar.length + 1

/-- Follow the assigned_math_object delegation chain (the node property of
MarkedMetavar, lines 1731-1738, reads through the assigned object, which
may itself be an assigned metavariable). -/
def resolveN (ar : Arena) : Nat → Nat → Nat
  | 0, i => i
  | fuel + 1, i =>
    match getN ar i with
    | some nd =>
      match nd.assigned with
      | some j => resolveN ar fuel j
      | none => i
    | none => i

/-- The delegated node kind (MarkedMetavar.node, lines 1731-1738; a plain
node returns its own kind).  A dangling id gives the empty string. -/
def nodeOf (ar : Arena) (i : Nat) : String :=
  match getN ar (resolveN ar (arenaFuel ar) i) with
  | some nd => nd.node
  | none => ""

/-- The delegated children (MarkedMetavar.children, lines 1749-1756). -/
def childrenOf (ar : Arena) (i : Nat) : List Nat :=
  match getN ar (resolveN ar (arenaFuel ar) i) with
  | some nd => nd.children
  | none => []

/-- The delegated display shape: the latex_shape is computed from the
delegated node kind and children, so it is the resolved node's shape. -/
def shapeOf (ar : Arena) (i : Nat) : List (Option Nat) :=
  match getN ar (resolveN ar (arenaFuel ar) i) with
  | some nd => nd.shape
  | none => []

/-- The own value attribute of a node (NUMBER nodes store their digits
there; insert_number reads and writes it on the assigned object itself). -/
def valueOf (ar : Arena) (i : Nat) : Option String :=
  (getN ar i).bind (fun nd => nd.value)

/-- cursor_pos of a node. -/
def cursorPosOf (ar : Arena) (i : Nat) : Option Int :=
  (getN ar i).bind (fun nd => nd.cursorPos)

/-- The assigned_math_object of a node. -/
def assignedOf (ar : Arena) (i : Nat) : Option Nat :=
  (getN ar i).bind (fun nd => nd.assigned)

/-- is_assigned (lines 148-150): bool(assigned_math_object). -/
def is_assigned (ar : Arena) (i : Nat) : Bool :=
  (assignedOf ar i).isSome

/-- is_metavar: whether the object is a MarkedMetavar instance. -/
def is_metavar (ar : Arena) (i : Nat) : Bool :=
  match getN ar i with
  | some nd => nd.isMetavar
  | none => false

/-- is_marked (lines 113-115): cursor_pos is not None. -/
def is_marked (ar : Arena) (i : Nat) : Bool :=
  (cursorPosOf ar i).isSome

/-- ordered_children (lines 1033-1059): the display shape with token
entries replaced by the node itself and child indices by the child ids.
An out-of-range child index would raise in Python and cannot occur in a
well-formed arena; it is mapped to the node itself here. -/
def ordered_children (ar : Arena) (i : Nat) : List Nat :=
  (shapeOf ar i).map (fun e =>
    match e with
    | none => i
    | some k => (childrenOf ar i).getD k i)

/-- total_and_cursor_list (lines 201-231): the flattened display order of
the whole subtree, as pairs (node id, cursor number), where the cursor
number is the index of the item in the ordered_children of its node. -/
def total_and_cursor_list (ar : Arena) : Nat → Nat → List (Nat × Nat)
  | 0, _ => []
  | fuel + 1, i =>
    ((ordered_children ar i).enum).bind (fun p =>
      if p.2 = i then [(i, p.1)]
      else total_and_cursor_list ar fuel p.2)

/-- marked_descendant (lines 156-168): the node itself when marked, else
the first marked descendant through ordered_children (self entries are
skipped). -/
def marked_descendant (ar : Arena) : Nat → Nat → Option Nat
  | 0, _ => none
  | fuel + 1, i =>
    if (cursorPosOf ar i).isSome then some i
    else
      (ordered_children ar i).findSome? (fun c =>
        if c = i then none else marked_descendant ar fuel c)

/-- parent_of (lines 426-440), walking the delegated children structure. -/
def parent_of (ar : Arena) : Nat → Nat → Nat → Option Nat
  | 0, _, _ => none
  | fuel + 1, self0, descendant =>
    if self0 = descendant then none
    else if descendant ∈ childrenOf ar self0 then some self0
    else (childrenOf ar self0).findSome? (fun c =>
      parent_of ar fuel c descendant)

/-- Root state: the tree root plus the _current_index_in_total_list cache
attribute (lines 111, 241-252) of the root object, the only object whose
cursor methods are ever invoked. -/
structure RState where
  ar : Arena
  root : Nat
  cache : Option Int
deriving DecidableEq, Repr

/-- The index of the pair (marked descendant, its cursor_pos) in the total
list, computed fresh: -1 when the pair is absent (for instance after
go_to_beginning, whose cursor position -1 matches no entry).  When no
marked descendant exists Python would raise; -1 is returned instead and
every theorem below excludes that case. -/
def compute_index (st : RState) : Int :=
  let l := total_and_cursor_list st.ar (arenaFuel st.ar) st.root
  match marked_descendant st.ar (arenaFuel st.ar) st.root with
  | some m =>
    match cursorPosOf st.ar m with
    | some cp =>
      match l.findIdx? (fun p => decide (p.1 = m) && decide ((p.2 : Int) = cp)) with
      | some k => (k : Int)
      | none => -1
    | none => -1
  | none => -1

/-- current_index_in_total_list (lines 233-253): the cached index is used
whenever it is truthy (so neither None nor 0 nor... in Python -1 is truthy
and is reused); otherwise the index is recomputed and cached. -/
def current_index_in_total_list (st : RState) : Int × RState :=
  match st.cache with
  | some c => if ¬c = 0 then (c, st) else
      let idx := compute_index st
      (idx, { st with cache := some idx })
  | none =>
    let idx := compute_index st
    (idx, { st with cache := some idx })

/-- appears_right_of_cursor (lines 408-416). -/
def appears_right_of_cursor (st : RState) (other : Nat) : Bool × RState :=
  let l := total_and_cursor_list st.ar (arenaFuel st.ar) st.root
  let p := current_index_in_total_list st
  ((l.drop (p.1 + 1).toNat).any (fun e => e.1 = other), p.2)

/-- appears_left_of_cursor (lines 418-424). -/
def appears_left_of_cursor (st : RState) (other : Nat) : Bool × RState :=
  let l := total_and_cursor_list st.ar (arenaFuel st.ar) st.root
  let p := current_index_in_total_list st
  ((l.take (p.1 + 1).toNat).any (fun e => e.1 = other), p.2)

/-- Modelled from the spec: MathDisplay.main_symbol_from_shape lives in
math_display, outside the sources.  The main symbol of a display shape is
its distinguished literal-token slot; we take the first token entry.  A
shape without token entries yields none, and cursor_pos is then set to
None as in the Python fallback. -/
def main_symbol_idx (sh : List (Option Nat)) : Option Nat :=
  sh.findIdx? (fun e => e.isNone)

/-- set_cursor_at_main_symbol (lines 1107-1110). -/
def set_cursor_at_main_symbol (st : RState) (i : Nat) : RState :=
  let pos : Option Int := (main_symbol_idx (shapeOf st.ar i)).map (fun k => (k : Int))
  { st with ar := setN st.ar i (fun nd => { nd with cursorPos := pos }) }

/-- set_cursor_at (lines 284-289): unmark the current marked descendant,
then mark mvar (at its main symbol when no position is given).  With no
marked descendant Python raises AttributeError; the state is returned
unchanged for that step here, and the theorems below only use states with
a marked descendant. -/
def set_cursor_at (st : RState) (mvar : Nat) (pos : Option Int) : RState :=
  let st1 :=
    match marked_descendant st.ar (arenaFuel st.ar) st.root with
    | some m =>
      { st with ar := setN st.ar m (fun nd => { nd with cursorPos := none }) }
    | none => st
  match pos with
  | some p =>
    { st1 with ar := setN st1.ar mvar (fun nd => { nd with cursorPos := some p }) }
  | none => set_cursor_at_main_symbol st1 mvar

/-- go_to_beginning (lines 291-294): cursor at the virtual position -1 of
the root. -/
def go_to_beginning (st : RState) : RState :=
  set_cursor_at st st.root (some (-1))

/-- go_to_end (lines 296-298). -/
def go_to_end (st : RState) : RState :=
  match (total_and_cursor_list st.ar (arenaFuel st.ar) st.root).getLast? with
  | some p => set_cursor_at st p.1 (some (p.2 : Int))
  | none => st

/-- decrease_cursor_pos (lines 300-311): move to the previous entry of the
total list, updating the cached index by -1; at the beginning, go to the
virtual position -1. -/
def decrease_cursor_pos (st : RState) : RState :=
  let l := total_and_cursor_list st.ar (arenaFuel st.ar) st.root
  let p := current_index_in_total_list st
  let idx := p.1
  let st1 := p.2
  if 0 < idx then
    match l.get? (idx - 1).toNat with
    | some e => set_cursor_at { st1 with cache := some (idx - 1) } e.1 (some (e.2 : Int))
    | none => st1
  else
    go_to_beginning st1

/-- increase_cursor_pos (lines 313-322): move to the next entry of the
total list, updating the cached index by +1; at the end, do nothing. -/
def increase_cursor_pos (st : RState) : RState :=
  let l := total_and_cursor_list st.ar (arenaFuel st.ar) st.root
  let p := current_index_in_total_list st
  let idx := p.1
  let st1 := p.2
  if idx < (l.length : Int) - 1 then
    match l.get? (idx + 1).toNat with
    | some e => set_cursor_at { st1 with cache := some (idx + 1) } e.1 (some (e.2 : Int))
    | none => st1
  else
    st1

/-- next_after_marked (lines 324-333): the node just right of the cursor. -/
def next_after_marked (st : RState) : Option Nat × RState :=
  let l := total_and_cursor_list st.ar (arenaFuel st.ar) st.root
  let p := current_index_in_total_list st
  if p.1 < (l.length : Int) - 1 then
    ((l.get? (p.1 + 1).toNat).map (fun e => e.1), p.2)
  else
    (none, p.2)

/-- Python list slice l[:idx] where idx may be negative (previous_unassigned
uses l[:idx] with idx possibly -1): a negative stop counts from the end,
clamped at zero. -/
def pySliceTo (l : List (Nat × Nat)) (idx : Int) : List (Nat × Nat) :=
  if 0 ≤ idx then l.take idx.toNat
  else l.take ((l.length : Int) + idx).toNat

/-- next_unassigned (lines 346-351): the first node after the cursor index
whose assigned_math_object is falsy.  Neither the source filter nor this
model requires the node to be a metavariable. -/
def next_unassigned (st : RState) : Option Nat × RState :=
  let l := total_and_cursor_list st.ar (arenaFuel st.ar) st.root
  let p := current_index_in_total_list st
  let mvars := (l.drop (p.1 + 1).toNat).filter (fun e => ¬is_assigned st.ar e.1)
  ((mvars.head?).map (fun e => e.1), p.2)

/-- previous_unassigned (lines 353-358): the last node before the cursor
index whose assigned_math_object is falsy (Python slice semantics). -/
def previous_unassigned (st : RState) : Option Nat × RState :=
  let l := total_and_cursor_list st.ar (arenaFuel st.ar) st.root
  let p := current_index_in_total_list st
  let mvars := (pySliceTo l p.1).filter (fun e => ¬is_assigned st.ar e.1)
  ((mvars.getLast?).map (fun e => e.1), p.2)

/-- move_right_to_next_unassigned (lines 360-368). -/
def move_right_to_next_unassigned (st : RState) : RState :=
  let p := next_unassigned st
  match p.1 with
  | some mvar => set_cursor_at p.2 mvar none
  | none => p.2

/-- move_left_to_previous_unassigned (lines 370-378). -/
def move_left_to_previous_unassigned (st : RState) : RState :=
  let p := previous_unassigned st
  match p.1 with
  | some mvar => set_cursor_at p.2 mvar none
  | none => p.2

/-- parent_of_marked (lines 335-338). -/
def parent_of_marked (st : RState) : Option Nat :=
  match marked_descendant st.ar (arenaFuel st.ar) st.root with
  | some mvar =>
    if ¬mvar = st.root then parent_of st.ar (arenaFuel st.ar) st.root mvar
    else none
  | none => none

/-- move_up (lines 340-344). -/
def move_up (st : RState) : RState :=
  match parent_of_marked st with
  | some parent => set_cursor_at st parent none
  | none => st

/-- move_after_insert (lines 380-406): move the mark down to the first
unassigned metavariable child, else to an unassigned metavariable among
the ordered children of the parent, else stay at the assigned node. -/
def move_after_insert (st : RState) (assigned_mvar : Nat) : RState :=
  match (ordered_children st.ar assigned_mvar).find? (fun c =>
      is_metavar st.ar c && !is_assigned st.ar c) with
  | some child => set_cursor_at st child (some 0)
  | none =>
    match parent_of st.ar (arenaFuel st.ar) st.root assigned_mvar with
    | some parent =>
      match (ordered_children st.ar parent).find? (fun c =>
          is_metavar st.ar c && !is_assigned st.ar c) with
      | some child => set_cursor_at st child (some 0)
      | none => set_cursor_at st assigned_mvar none
    | none => set_cursor_at st assigned_mvar none

/-- merge_nbs (lines 89-93): concatenate two number strings provided the
result has at most one decimal point. -/
def merge_nbs (nb1 nb2 : String) : Option String :=
  let nb := nb1 ++ nb2
  if (nb.toList.filter (fun c => c = '.')).length < 2 then some nb
  else none

/-- The priorities table (lines 818-824), in decreasing precedence. -/
def priorities : List (List String) :=
  [["COMPOSITE_NUMBER"],
   ["POINT"],
   ["MULT", "DIV"],
   ["SUM", "DIFFERENCE"],
   ["PROP_EQUAL", "PROP_<", "PROP_>", "PROP_≤", "PROP_≥"]]

/-- The scanning loop of the priority function (lines 836-850),
with the self_found / other_found flags. -/
def priority_loop (self0 other : String) :
    List (List String) → Bool → Bool → Option Char
  | [], _, _ => none
  | nodes :: rest, selfFound, otherFound =>
    if self0 ∈ nodes then
      if otherFound then some '<'
      else if other ∈ nodes then some '='
      else priority_loop self0 other rest true otherFound
    else if other ∈ nodes then
      if selfFound then some '>'
      else priority_loop self0 other rest selfFound true
    else priority_loop self0 other rest selfFound otherFound

/-- priority (lines 827-850): same / tighter / looser / incomparable. -/
def priority (self0 other : String) : Option Char :=
  if self0 = "" ∨ other = "" then none
  else priority_loop self0 other priorities false false

/-- The index of the precedence class of a tag, if any. -/
def classIdx (x : String) : Option Nat :=
  priorities.findIdx? (fun l => decide (x ∈ l))

/-- The loop of partionned_children (lines 1074-1085): state
(left, central, movedPastFirstSelf, idx of last further self appearance). -/
def partition_step (i : Nat)
    (acc : List Nat × List Nat × Bool × Int) (child : Nat) :
    List Nat × List Nat × Bool × Int :=
  match acc with
  | (left, central, inLeft, idx) =>
    if child = i then
      if inLeft then (left, central, false, idx)
      else (left, central, false, (central.length : Int))
    else if inLeft then (left ++ [child], central, inLeft, idx)
    else (left, central ++ [child], inLeft, idx)

/-- partionned_children (lines 1061-1096): the proper ordered children
split into those left of the first self appearance, those between first
and last appearance, and those right of the last appearance. -/
def partionned_children (ar : Arena) (i : Nat) :
    List Nat × List Nat × List Nat :=
  let children := ordered_children ar i
  match children.foldl (partition_step i) ([], [], true, -1) with
  | (left, central, inLeft, idx) =>
    if inLeft then ([], left, [])
    else if ¬idx = -1 then (left, central.take idx.toNat, central.drop idx.toNat)
    else (left, [], central)

/-- Modelled from the spec: PatternMathObject.all_mvars lives in
pattern_math_object.py, outside the sources.  It collects the
metavariables of a subtree in display order through the delegated
children, keeping only unassigned ones when the flag is set. -/
def all_mvars (ar : Arena) (unassigned : Bool) : Nat → Nat → List Nat
  | 0, _ => []
  | fuel + 1, i =>
    (if is_metavar ar i && (!unassigned || !is_assigned ar i) then [i] else []) ++
    (childrenOf ar i).bind (fun c => all_mvars ar unassigned fuel c)

/-- partionned_mvars (lines 1098-1105). -/
def partionned_mvars (ar : Arena) (i : Nat) (unassigned : Bool) :
    List Nat × List Nat × List Nat :=
  match partionned_children ar i with
  | (left, central, right) =>
    (left.bind (fun c => all_mvars ar unassigned (arenaFuel ar) c),
     central.bind (fun c => all_mvars ar unassigned (arenaFuel ar) c),
     right.bind (fun c => all_mvars ar unassigned (arenaFuel ar) c))

/-- Modelled from the spec: PatternMathObject.match lives outside the
sources.  It attempts structural unification of the pattern (self) against
a target and, with use_cls_metavars, records the matched metavariables for
a later assign_matched_metavars instead of assigning at once.  In every
call the insertion engine makes, the pattern is an unassigned
metavariable, whose success depends only on type compatibility; math types
are not part of this model, so an unassigned metavariable pattern matches
any target.  The caller appends the recorded pair to its matchings list. -/
def matchPattern (ar : Arena) (patternId : Nat) : Bool :=
  is_metavar ar patternId && !is_assigned ar patternId

/-- clear_assignment of a metavariable (spec 4.1; the source method lives
in pattern_math_object.py outside the sources): the assignment is removed.
The clearing of a metavariable math type does not arise here since math
types are not modelled. -/
def clear_assignment (ar : Arena) (i : Nat) : Arena :=
  setN ar i (fun nd => { nd with assigned := none })

/-- do_assign (lines 1218-1221): perform the recorded assignments. -/
def do_assign (ar : Arena) (assignments : List (Nat × Nat)) : Arena :=
  assignments.foldl (fun a p => setN a p.1 (fun nd => { nd with assigned := some p.2 })) ar

/-- assign_matched_metavars (called line 1447; the method lives outside
the sources): assign every metavariable recorded by match during this
insertion attempt, in recording order. -/
def assign_matched_metavars (ar : Arena) (matchings : List (Nat × Nat)) : Arena :=
  matchings.foldl (fun a p => setN a p.1 (fun nd => { nd with assigned := some p.2 })) ar

/-- assign (lines 1155-1173): try the mvars in order; a match success
records the pair for assign_matched_metavars; a failure with
check_types=False records the pair in the assignments list and counts as
success anyway; only with check_types=True can the next mvar be tried.
Returns (success, assignments, matchings). -/
def assign (ar : Arena) : List Nat → Nat → List (Nat × Nat) → List (Nat × Nat) →
    Bool → Bool × List (Nat × Nat) × List (Nat × Nat)
  | [], _, assignments, matchings, _ => (false, assignments, matchings)
  | child :: rest, mo, assignments, matchings, check_types =>
    if matchPattern ar child then
      (true, assignments, matchings ++ [(child, mo)])
    else if ¬check_types then
      (true, assignments ++ [(child, mo)], matchings)
    else
      assign ar rest mo assignments matchings check_types

/-- One cursor-side filtering pass threading the index cache: keep the
children for which the test function answers false. -/
def filter_not_side (st : RState)
    (test : RState → Nat → Bool × RState) (children : List Nat) :
    List Nat × RState :=
  children.foldl
    (fun acc c =>
      let p := test acc.2 c
      (if ¬p.1 then acc.1 ++ [c] else acc.1, p.2))
    ([], st)

/-- first_right_descendants (lines 1223-1250): the descendants of mvar
that are the first right of the cursor in their lineage: right descendants
of the last left child, then the right children. -/
def first_right_descendants (st : RState) : Nat → Nat → List Nat × RState
  | 0, _ => ([], st)
  | fuel + 1, mvar =>
    match assignedOf st.ar mvar with
    | none => ([], st)
    | some mo =>
      let children := childrenOf st.ar mo
      let pl := filter_not_side st appears_right_of_cursor children
      let pr := filter_not_side pl.2 appears_left_of_cursor children
      match pl.1.getLast? with
      | some limit =>
        let pm := first_right_descendants pr.2 fuel limit
        (pm.1 ++ pr.1, pm.2)
      | none => (pr.1, pr.2)

/-- first_left_descendants (lines 1252-1279): symmetric to
first_right_descendants. -/
def first_left_descendants (st : RState) : Nat → Nat → List Nat × RState
  | 0, _ => ([], st)
  | fuel + 1, mvar =>
    match assignedOf st.ar mvar with
    | none => ([], st)
    | some mo =>
      let children := childrenOf st.ar mo
      let pl := filter_not_side st appears_right_of_cursor children
      let pr := filter_not_side pl.2 appears_left_of_cursor children
      match pr.1.head? with
      | some limit =>
        let pm := first_left_descendants pr.2 fuel limit
        (pl.1 ++ pm.1, pm.2)
      | none => (pl.1, pr.2)

/-- priority_tests (lines 1175-1216): test I checks that new_pmo may take
the place of mvar under parent_mvar (left children reject strictly lower
precedence, right children reject lower-or-equal); test II checks that
mvar may become a child of new_pmo on the side given by the cursor. -/
def priority_tests (st : RState) (new_pmo mvar : Nat)
    (parent_mvar : Option Nat) : Bool × RState :=
  let test1 : Bool :=
    match parent_mvar with
    | some parent =>
      match partionned_children st.ar parent with
      | (left_children, _central, right_children) =>
        if mvar ∈ left_children then
          decide (¬priority (nodeOf st.ar parent) (nodeOf st.ar new_pmo) = some '>')
        else if mvar ∈ right_children then
          decide (¬(priority (nodeOf st.ar parent) (nodeOf st.ar new_pmo) = some '=' ∨
                    priority (nodeOf st.ar parent) (nodeOf st.ar new_pmo) = some '>'))
        else true
    | none => true
  if ¬test1 then (false, st)
  else
    let pleft := appears_left_of_cursor st mvar
    let test2 : Bool :=
      if pleft.1 then
        decide (¬priority (nodeOf st.ar new_pmo) (nodeOf st.ar mvar) = some '>')
      else
        decide (¬(priority (nodeOf st.ar new_pmo) (nodeOf st.ar mvar) = some '=' ∨
                  priority (nodeOf st.ar new_pmo) (nodeOf st.ar mvar) = some '>'))
    (test2, pleft.2)

/-- The inner while-mvars loop of the bad-children refactoring (lines
1359-1377): pop mvars until one matches the displaced child value (or, with
check_types=False, accept the first anyway).  Returns none when the mvars
run out (the insertion fails), else the remaining mvars and the updated
assignment lists. -/
def bad_child_match (ar : Arena) : List Nat → Nat → List (Nat × Nat) →
    List (Nat × Nat) → Bool →
    Option (List Nat × List (Nat × Nat) × List (Nat × Nat))
  | [], _, _, _, _ => none
  | pmo_mvar :: rest, math_child, assignments, matchings, check_types =>
    if matchPattern ar pmo_mvar then
      some (rest, assignments, matchings ++ [(pmo_mvar, math_child)])
    else if ¬check_types then
      some (rest, assignments ++ [(pmo_mvar, math_child)], matchings)
    else
      bad_child_match ar rest math_child assignments matchings check_types

/-- The while-bad_children loop of re_assign (lines 1351-1384): each
displaced child with an assigned value is matched against the remaining
new_pmo metavariables; on success all children collected so far in
mvar_to_be_cleared are cleared (this also happens when a later child then
fails, which is the non-atomicity the source FIXME at lines 1290-1291
questions); on failure the whole re-assignment fails. -/
def bad_children_loop (st : RState) : List Nat → List Nat → List Nat →
    List (Nat × Nat) → List (Nat × Nat) → Bool →
    Bool × RState × List (Nat × Nat) × List (Nat × Nat)
  | mvars, [], _, assignments, matchings, _ => (true, st, assignments, matchings)
  | mvars, child :: badRest, toClear, assignments, matchings, check_types =>
    match assignedOf st.ar child with
    | none => bad_children_loop st mvars badRest toClear assignments matchings check_types
    | some math_child =>
      match bad_child_match st.ar mvars math_child assignments matchings check_types with
      | none => (false, st, assignments, matchings)
      | some (mvarsRest, as2, ms2) =>
        let toClear2 := toClear ++ [child]
        let ar2 := toClear2.foldl (fun a c => clear_assignment a c) st.ar
        bad_children_loop { st with ar := ar2 } mvarsRest badRest toClear2 as2 ms2 check_types

/-- re_assign (lines 1281-1386): try to re-assign the assigned value of
mvar to a left / right / central metavariable of new_pmo according to the
cursor side, then relocate the displaced children; see bad_children_loop
for the failure behaviour. -/
def re_assign (st : RState) (mvar new_pmo : Nat)
    (assignments matchings : List (Nat × Nat)) (check_types : Bool) :
    Bool × RState × List (Nat × Nat) × List (Nat × Nat) :=
  -- the source asserts mvar.is_assigned; all call sites guard on it
  let pleft := appears_left_of_cursor st mvar
  let pright := appears_right_of_cursor pleft.2 mvar
  let st2 := pright.2
  match partionned_mvars st2.ar new_pmo true with
  | (left_mvars, central_mvars, right_mvars) =>
    let math_object := (assignedOf st2.ar mvar).getD 0
    let resL :=
      if pleft.1 then assign st2.ar left_mvars math_object assignments matchings check_types
      else (false, assignments, matchings)
    match resL with
    | (left_insertion, as1, ms1) =>
      let resR :=
        if ¬left_insertion && pright.1 then
          assign st2.ar right_mvars math_object as1 ms1 check_types
        else (false, as1, ms1)
      match resR with
      | (right_insertion, as2, ms2) =>
        let resC :=
          if ¬(left_insertion || right_insertion) then
            assign st2.ar central_mvars math_object as2 ms2 check_types
          else (false, as2, ms2)
        match resC with
        | (central_insertion, as3, ms3) =>
          if ¬(left_insertion || right_insertion || central_insertion) then
            (false, st2, as3, ms3)
          else if central_insertion then
            (true, st2, as3, ms3)
          else
            -- (C) additional refactoring of displaced children
            let pbad :=
              if left_insertion then first_right_descendants st2 (arenaFuel st2.ar) mvar
              else first_left_descendants st2 (arenaFuel st2.ar) mvar
            let mvarsList := if left_insertion then right_mvars else left_mvars
            bad_children_loop pbad.2 mvarsList pbad.1 [] as3 ms3 check_types

/-- insert_if_you_can (lines 1388-1449): priority tests, re-assignment of
an assigned anchor, last match, then application of the recorded
matchings (assign_matched_metavars) and assignments (do_assign).  The
matchings list starts empty at each call (clear_cls_metavars, line 1395).
The appears_left / appears_right calls at lines 1403-1404 feed only the
log but populate the root index cache, so they are kept. -/
def insert_if_you_can (st : RState) (new_pmo mvar : Nat)
    (parent_mvar : Option Nat) (check_types : Bool) : Bool × RState :=
  let pleft := appears_left_of_cursor st mvar
  let pright := appears_right_of_cursor pleft.2 mvar
  let st2 := pright.2
  -- (A) priority tests
  let ptests := priority_tests st2 new_pmo mvar parent_mvar
  if ¬ptests.1 then (false, ptests.2)
  else
    -- (B) first match test
    let st3 := ptests.2
    let assigned := is_assigned st3.ar mvar
    let resB :=
      if assigned then re_assign st3 mvar new_pmo [] [] check_types
      else (true, st3, [], [])
    match resB with
    | (reOk, st4, as1, ms1) =>
      if assigned && ¬reOk then (false, st4)
      else
        -- (D) last match
        let ar5 := clear_assignment st4.ar mvar
        let st5 := { st4 with ar := ar5 }
        let match_mvar_test := matchPattern st5.ar mvar
        if ¬match_mvar_test && check_types then (false, st5)
        else
          let as2 := if ¬match_mvar_test then as1 ++ [(mvar, new_pmo)] else as1
          let ms2 := if match_mvar_test then ms1 ++ [(mvar, new_pmo)] else ms1
          let ar6 := assign_matched_metavars st5.ar ms2
          let ar7 := do_assign ar6 as2
          (true, { st5 with ar := ar7 })

/-- substitute_generic_node (lines 1514-1556): place the two assigned
children of a generic node among the metavariables of new_pmo, then
assign new_pmo to the generic node's metavariable.  A generic node has
exactly two children; any other arity would raise in Python and is
modelled as failure. -/
def substitute_generic_node (st : RState) (mvar new_pmo : Nat)
    (check_types : Bool) : Bool × RState :=
  match childrenOf st.ar mvar with
  | [child1, child2] =>
    let mo1 := assignedOf st.ar child1
    let mo2 := assignedOf st.ar child2
    match partionned_mvars st.ar new_pmo true with
    | (left_mvars, central_mvars, right_mvars) =>
      let step1 :
          Option (List (Nat × Nat) × List Nat) :=
        match mo1 with
        | none => some ([], central_mvars)
        | some m1 =>
          match left_mvars.head? with
          | some lm =>
            if ¬check_types then some ([(lm, m1)], central_mvars)
            else some ([], central_mvars)  -- source: pass  # TODO!!
          | none =>
            match central_mvars with
            | c0 :: cRest => some ([(c0, m1)], cRest)
            | [] => none
      match step1 with
      | none => (false, st)
      | some (as1, central1) =>
        let step2 : Option (List (Nat × Nat)) :=
          match mo2 with
          | none => some as1
          | some m2 =>
            match right_mvars.head? with
            | some rm => some (as1 ++ [(rm, m2)])
            | none =>
              match central1 with
              | c0 :: _ => some (as1 ++ [(c0, m2)])
              | [] => none
        match step2 with
        | none => (false, st)
        | some as2 =>
          let ar2 := do_assign st.ar as2
          let ar3 := setN ar2 mvar (fun nd => { nd with assigned := some new_pmo })
          (true, { st with ar := ar3 })
  | _ => (false, st)

/-- Copy a list of subtrees into the arena with fresh ids (deep_copy;
PatternMathObject.deep_copy lives outside the sources.  Modelled from the
spec: deep_copy produces a fully independent copy of a pattern subtree,
including all descendant metavariables with fresh identity;
MarkedMetavar.deep_copy, lines 1723-1729, keeps cursor_pos and the mark).
Returns the fresh ids, the extended arena and the next free id. -/
def deep_copy_list : Nat → Arena → List Nat → Nat →
    List Nat × Arena × Nat
  | 0, ar, _, nid => ([], ar, nid)
  | _ + 1, ar, [], nid => ([], ar, nid)
  | fuel + 1, ar, i :: rest, nid =>
    match getN ar i with
    | none =>
      -- dangling id: kept as is (cannot occur in a well-formed arena)
      let pRest := deep_copy_list fuel ar rest nid
      (i :: pRest.1, pRest.2.1, pRest.2.2)
    | some nd =>
      let pc := deep_copy_list fuel ar nd.children nid
      let pa := deep_copy_list fuel pc.2.1 nd.assigned.toList pc.2.2
      let newId := pa.2.2
      let nd2 : Node := { nd with children := pc.1, assigned := pa.1.head? }
      let ar3 := pa.2.1 ++ [(newId, nd2)]
      let pRest := deep_copy_list fuel ar3 rest (newId + 1)
      (newId :: pRest.1, pRest.2.1, pRest.2.2)

/-- The first id unused by the arena. -/
def next_free_id (ar : Arena) : Nat :=
  (ar.map (fun p => p.1)).foldl max 0 + 1

/-- MarkedPatternMathObject.deep_copy of one subtree into the arena.  The
fuel decreases at each copied node and at each list step, so twice the
arena fuel covers every subtree of a well-formed arena. -/
def deep_copy (st : RState) (i : Nat) : Nat × RState :=
  match deep_copy_list (2 * arenaFuel st.ar) st.ar [i] (next_free_id st.ar) with
  | (newIds, ar2, _) => (newIds.headD i, { st with ar := ar2 })

/-- The while-mvar walk of insert (lines 1480-1487): climb from the anchor
through its ancestors until insert_if_you_can succeeds.  The final
is_metavar check of the source (lines 1486-1487) only issues a continue,
which is a no-op at the end of the loop body, so it does not alter the
walk. -/
def insert_walk (st : RState) (new_pmo : Nat) :
    Nat → Option Nat → Option Nat → Option Nat × RState
  | 0, _, _ => (none, st)
  | fuel + 1, mvarOpt, parentOpt =>
    match mvarOpt with
    | none => (none, st)
    | some mvar =>
      let res := insert_if_you_can st new_pmo mvar parentOpt false
      if res.1 then (some mvar, res.2)
      else
        let newParent :=
          match parentOpt with
          | some p => parent_of res.2.ar (arenaFuel res.2.ar) res.2.root p
          | none => none
        insert_walk res.2 new_pmo fuel parentOpt newParent

/-- One anchor attempt of insert (lines 1470-1487): generic-node
substitution first, then the ancestor walk. -/
def insert_anchor (st : RState) (new_pmo : Nat) (anchor : Option Nat) :
    Option Nat × RState :=
  match anchor with
  | none => (none, st)
  | some mvar =>
    let pSub :=
      if nodeOf st.ar mvar = "GENERIC_NODE" then
        substitute_generic_node st mvar new_pmo false
      else (false, st)
    if pSub.1 then (some mvar, pSub.2)
    else
      let st1 := pSub.2
      let parent := parent_of st1.ar (arenaFuel st1.ar) st1.root mvar
      insert_walk st1 new_pmo (arenaFuel st1.ar) (some mvar) parent

/-- insert (lines 1454-1489): deep-copy the new pattern, then try the
marked descendant and the node just after the cursor as anchors; on
success return the mvar where insertion happened, else None. -/
def insert (st : RState) (new_pmo : Nat) : Option Nat × RState :=
  let pCopy := deep_copy st new_pmo
  let new_pmo_copy := pCopy.1
  let st1 := pCopy.2
  let anchor1 := marked_descendant st1.ar (arenaFuel st1.ar) st1.root
  let pNext := next_after_marked st1
  let anchor2 := pNext.1
  let st2 := pNext.2
  match insert_anchor st2 new_pmo_copy anchor1 with
  | (some m, st3) => (some m, st3)
  | (none, st3) =>
    match insert_anchor st3 new_pmo_copy anchor2 with
    | (some m, st4) => (some m, st4)
    | (none, st4) => (none, st4)

/-- The else branch of insert_number (lines 1575-1583). -/
def insert_number_right (st : RState) (new_pmo_value : String) :
    Option Nat × RState :=
  let pNext := next_after_marked st
  match pNext.1 with
  | none => (none, pNext.2)  -- Python would raise on None; no merge here
  | some mvar =>
    match assignedOf pNext.2.ar mvar with
    | some rc =>
      if nodeOf pNext.2.ar rc = "NUMBER" then
        match merge_nbs new_pmo_value ((valueOf pNext.2.ar rc).getD "") with
        | some nv =>
          (some mvar,
           { pNext.2 with ar := setN pNext.2.ar rc (fun nd => { nd with value := some nv }) })
        | none => (none, pNext.2)
      else (none, pNext.2)
    | none => (none, pNext.2)

/-- insert_number (lines 1558-1583): merge a NUMBER or POINT fragment with
the number assigned at the marked node (string concatenation on the left),
or else with the number assigned just right of the cursor.  The value is
read and written on the assigned object itself; the node kind test reads
through delegation as in Python. -/
def insert_number (st : RState) (new_pmo : Nat) : Option Nat × RState :=
  if ¬(nodeOf st.ar new_pmo = "NUMBER" ∨ nodeOf st.ar new_pmo = "POINT") then
    (none, st)
  else
    let new_pmo_value :=
      if nodeOf st.ar new_pmo = "NUMBER" then (valueOf st.ar new_pmo).getD ""
      else "."
    match marked_descendant st.ar (arenaFuel st.ar) st.root with
    | none => (none, st)  -- Python would raise; the claims use marked trees
    | some mvar =>
      let left_child := assignedOf st.ar mvar
      match left_child with
      | some lc =>
        if nodeOf st.ar lc = "NUMBER" then
          match merge_nbs ((valueOf st.ar lc).getD "") new_pmo_value with
          | some nv =>
            (some mvar, { st with ar := setN st.ar lc (fun nd => { nd with value := some nv }) })
          | none => (none, st)
        else
          insert_number_right st new_pmo_value
      | none =>
        insert_number_right st new_pmo_value

/-- The ids of the marked arena entries: every association-list entry whose
node carries a cursor position.  The single-mark invariant of the source
says this list is a singleton. -/
def marked_ids (ar : Arena) : List Nat :=
  (ar.filter (fun p => (p.2.cursorPos).isSome)).map (fun p => p.1)

/-! ## Concrete example trees

The following arenas are concrete inputs used to evaluate the claims.
Metavariable nodes carry the node kind METAVAR (the kind of an unassigned
MetaVar), a single-token shape, and delegate to their assigned object. -/

/-- Build a node. -/
def mkNode (node : String) (value : Option String) (isMv : Bool)
    (assigned : Option Nat) (cp : Option Int) (children : List Nat)
    (shape : List (Option Nat)) : Node :=
  ⟨node, value, isMv, assigned, cp, children, shape⟩

/-- The tree SUM(?1, NUMBER=1) with the cursor on the unassigned
metavariable ?1 (id 1); ids: 0 = the SUM node, 2 = the NUMBER. -/
def sumTreeMvarMarked : RState :=
  ⟨[(0, mkNode "SUM" none false none none [1, 2] [some 0, none, some 1]),
    (1, mkNode "METAVAR" none true none (some 0) [] [none]),
    (2, mkNode "NUMBER" (some "1") false none none [] [none])], 0, none⟩

/-- The same tree with the cursor on the SUM node, right after its symbol
(cursor position 1 = total-list index 1). -/
def sumTreeRootMarked : RState :=
  ⟨[(0, mkNode "SUM" none false none (some 1) [1, 2] [some 0, none, some 1]),
    (1, mkNode "METAVAR" none true none none [] [none]),
    (2, mkNode "NUMBER" (some "1") false none none [] [none])], 0, none⟩

/-- The state reached from sumTreeRootMarked by
move_right_to_next_unassigned: the mark jumps to the NUMBER node while the
root cache keeps the pre-jump index 1. -/
def sumTreeAfterMoveRight : RState :=
  move_right_to_next_unassigned sumTreeRootMarked

/-- A marked metavariable (id 0) whose assigned object is NUMBER 1 (id 1);
id 2 is a NUMBER 2 fragment to insert. -/
def numberTree1 : RState :=
  ⟨[(0, mkNode "METAVAR" none true (some 1) (some 0) [] [none]),
    (1, mkNode "NUMBER" (some "1") false none none [] [none]),
    (2, mkNode "NUMBER" (some "2") false none none [] [none])], 0, none⟩

/-- A marked metavariable (id 0) assigned NUMBER 3 (id 1); id 2 is a POINT
fragment and id 3 a NUMBER 5 fragment. -/
def numberTree3 : RState :=
  ⟨[(0, mkNode "METAVAR" none true (some 1) (some 0) [] [none]),
    (1, mkNode "NUMBER" (some "3") false none none [] [none]),
    (2, mkNode "POINT" none false none none [] [none]),
    (3, mkNode "NUMBER" (some "5") false none none [] [none])], 0, none⟩

/-- numberTree3 after inserting the POINT: the value is the string 3. -/
def numberTree3p : RState :=
  (insert_number numberTree3 2).2

/-- numberTree3p after inserting NUMBER 5: the value is 3.5. -/
def numberTree35 : RState :=
  (insert_number numberTree3p 3).2

/-- Failing input for insertion atomicity: the root metavariable (id 0,
marked at its main-symbol position 1) is assigned a SUM node (id 1) whose
four metavariable children (ids 2-5) are assigned the NUMBER objects 1 to
4 (ids 6-9).  The fragment to insert is the SUM pattern ?+? (ids 10-12,
two unassigned metavariables). -/
def atomicityTree : RState :=
  ⟨[(0, mkNode "METAVAR" none true (some 1) (some 1) [] [none]),
    (1, mkNode "SUM" none false none none [2, 3, 4, 5]
       [some 0, none, some 1, some 2, some 3]),
    (2, mkNode "METAVAR" none true (some 6) none [] [none]),
    (3, mkNode "METAVAR" none true (some 7) none [] [none]),
    (4, mkNode "METAVAR" none true (some 8) none [] [none]),
    (5, mkNode "METAVAR" none true (some 9) none [] [none]),
    (6, mkNode "NUMBER" (some "1") false none none [] [none]),
    (7, mkNode "NUMBER" (some "2") false none none [] [none]),
    (8, mkNode "NUMBER" (some "3") false none none [] [none]),
    (9, mkNode "NUMBER" (some "4") false none none [] [none]),
    (10, mkNode "SUM" none false none none [11, 12] [some 0, none, some 1]),
    (11, mkNode "METAVAR" none true none none [] [none]),
    (12, mkNode "METAVAR" none true none none [] [none])], 0, none⟩

/-- Input on which a successful insertion detaches the marked node: the
root metavariable (id 0) is assigned a FOO node (id 1) with children B1
(id 2, assigned the MULT node id 4) and B2 (id 3, assigned NUMBER 9, id
5); MULT has three metavariable children (ids 6-8), the first two assigned
NUMBER objects (ids 9-10), the last one (id 8) unassigned and marked.  The
fragment to insert is the SUM pattern ?+? (ids 11-13). -/
def detachTree : RState :=
  ⟨[(0, mkNode "METAVAR" none true (some 1) none [] [none]),
    (1, mkNode "FOO" none false none none [2, 3] [none, some 0, some 1]),
    (2, mkNode "METAVAR" none true (some 4) none [] [none]),
    (3, mkNode "METAVAR" none true (some 5) none [] [none]),
    (4, mkNode "MULT" none false none none [6, 7, 8]
       [some 0, some 1, some 2, none]),
    (5, mkNode "NUMBER" (some "9") false none none [] [none]),
    (6, mkNode "METAVAR" none true (some 9) none [] [none]),
    (7, mkNode "METAVAR" none true (some 10) none [] [none]),
    (8, mkNode "METAVAR" none true none (some 0) [] [none]),
    (9, mkNode "NUMBER" (some "1") false none none [] [none]),
    (10, mkNode "NUMBER" (some "2") false none none [] [none]),
    (11, mkNode "SUM" none false none none [12, 13] [some 0, none, some 1]),
    (12, mkNode "METAVAR" none true none none [] [none]),
    (13, mkNode "METAVAR" none true none none [] [none])], 0, none⟩

end Marked

namespace Dispatch

/-- List-level frame lemma for updReq. -/
theorem find_map_upd_ne (l : List (Nat × R)) (s s2 : Nat) (f : R → R)
    (h : ¬s2 = s) :
    (l.map (fun p => if p.1 = s then (p.1, f p.2) else p)).find?
        (fun p => p.1 = s2) =
      l.find? (fun p => p.1 = s2) := by
  induction l with
  | nil => rfl
  | cons p rest ih =>
    by_cases hp : p.1 = s
    · have hp2 : ¬p.1 = s2 := fun hc => h (hc.symm.trans hp)
      rw [List.map_cons,
        List.find?_cons_of_neg _ (by simp [hp]; exact fun hc => h hc.symm),
        List.find?_cons_of_neg _ (by simp [hp2]), ih]
    · by_cases hp2 : p.1 = s2
      · rw [List.map_cons, if_neg hp, List.find?_cons_of_pos _ (by simp [hp2]),
          List.find?_cons_of_pos _ (by simp [hp2])]
      · rw [List.map_cons, if_neg hp, List.find?_cons_of_neg _ (by simp [hp2]),
          List.find?_cons_of_neg _ (by simp [hp2]), ih]

/-- List-level frame lemma for popReq. -/
theorem find_filter_pop_ne (l : List (Nat × R)) (s s2 : Nat)
    (h : ¬s2 = s) :
    (l.filter (fun p => ¬(p.1 = s))).find? (fun p => p.1 = s2) =
      l.find? (fun p => p.1 = s2) := by
  induction l with
  | nil => rfl
  | cons p rest ih =>
    by_cases hp : p.1 = s
    · have hp2 : ¬p.1 = s2 := fun hc => h (hc.symm.trans hp)
      rw [List.filter_cons_of_neg (by simp [hp]),
        List.find?_cons_of_neg _ (by simp [hp2]), ih]
    · rw [List.filter_cons_of_pos (by simp [hp])]
      by_cases hp2 : p.1 = s2
      · rw [List.find?_cons_of_pos _ (by simp [hp2]),
          List.find?_cons_of_pos _ (by simp [hp2])]
      · rw [List.find?_cons_of_neg _ (by simp [hp2]),
          List.find?_cons_of_neg _ (by simp [hp2]), ih]

/-- Frame lemma: updating the request under s leaves every other key
unchanged. -/
theorem getReq_updReq_ne (st : SIState R) (s s2 : Nat) (f : R → R)
    (h : ¬s2 = s) : getReq (updReq st s f) s2 = getReq st s2 := by
  unfold getReq updReq
  simp only [find_map_upd_ne _ _ _ _ h]

/-- Frame lemma: removing the request under s leaves every other key
unchanged. -/
theorem getReq_popReq_ne (st : SIState R) (s s2 : Nat)
    (h : ¬s2 = s) : getReq (popReq st s) s2 = getReq st s2 := by
  unfold getReq popReq
  simp only [find_filter_pop_ne _ _ _ h]

/-- Frame lemma: error-channel updates do not change the pending map. -/
theorem getReq_error_channel (st : SIState R) (l : List LMsg) (s2 : Nat) :
    getReq { st with error_channel := l } s2 = getReq st s2 := rfl

/-- Frame lemma for __check_request_complete: keys other than s are
unchanged. -/
theorem getReq_check_request_complete_ne (cb : ReqCallbacks R)
    (st : SIState R) (s s2 : Nat) (h : ¬s2 = s) :
    getReq (check_request_complete cb st s) s2 = getReq st s2 := by
  unfold check_request_complete
  cases getReq st s with
  | none => rfl
  | some req =>
    by_cases hc : cb.is_complete req
    · simp [hc, getReq_popReq_ne _ _ _ h, getReq_updReq_ne _ _ _ _ h]
    · simp [hc]

/-- The trivial request callbacks on a unit request state, used for
closed evaluations. -/
def trivialCallbacks : ReqCallbacks Unit :=
  ⟨fun _ _ _ => (), fun _ _ _ => (), fun _ _ => (), fun _ => false,
   fun _ => (), fun _ => false⟩

/-- A dispatcher state with one pending request, registered under 5. -/
def stateWithReq5 : SIState Unit := ⟨[(5, ())], [], true⟩

/-- An incoming message bearing the unknown sequence number 3. -/
def msgSeq3 : LMsg := ⟨3, Severity.info, "context #: X", 12⟩

end Dispatch

/-! # Theorems for the server queue claims -/

/-- Claim C5: along every sequence of add_task calls and task completions,
at most one task is executing at any instant; the start trace is the
completion trace followed by the running task (so tasks complete in start
order); default (on_top=False) tasks are started in submission order; when
the last task finishes (empty queue), is_busy becomes False and the
queue_ended event is set; and a task added with on_top=True is started
before every task that was pending in the queue when it was added. -/
theorem C5_queue_single_flight_and_order :
    (∀ ops : List Queue.SQOp,
       (Queue.sq_run ops).running.length ≤ 1 ∧
       (Queue.sq_run ops).started_trace =
         (Queue.sq_run ops).finished_trace ++ (Queue.sq_run ops).running ∧
       List.Pairwise (fun x y => x.idx < y.idx)
         (Queue.defaults (Queue.sq_run ops).started_trace)) ∧
    (∀ ops : List Queue.SQOp,
       (Queue.sq_run ops).queue = [] → ¬(Queue.sq_run ops).running = [] →
       (Queue.task_finished (Queue.sq_run ops)).is_busy = false ∧
       (Queue.task_finished (Queue.sq_run ops)).queue_ended = some true) ∧
    (∀ (ops1 ops2 : List Queue.SQOp) (q0 : Queue.Task),
       q0 ∈ (Queue.sq_run ops1).queue →
       q0 ∈ (Queue.sq_run (ops1 ++ Queue.SQOp.add true :: ops2)).started_trace →
       Queue.startedBefore (Queue.sq_run (ops1 ++ Queue.SQOp.add true :: ops2))
         ⟨(Queue.sq_run ops1).next_idx, true⟩ q0) := by
  refine ⟨?_, ?_, ?_⟩
  · intro ops
    obtain ⟨h1, _, _, h4, _, h6, _, _, _⟩ := Queue.sq_inv_run ops
    exact ⟨h1, h4, h6⟩
  · intro ops hq hr
    obtain ⟨h1, _, _, _, _, _, _, _, _⟩ := Queue.sq_inv_run ops
    cases hrun : (Queue.sq_run ops).running with
    | nil => exact absurd hrun hr
    | cons r rest =>
      have hrest : rest = [] := by
        rw [hrun] at h1
        simpa using h1
      subst hrest
      have hstep : Queue.task_finished (Queue.sq_run ops) =
          Queue.next_task
            { Queue.sq_run ops with
              running := []
              finished_trace := (Queue.sq_run ops).finished_trace ++ [r] } := by
        unfold Queue.task_finished
        rw [hrun]
      rw [hstep, Queue.next_task_empty _ (by simpa using hq)]
      exact ⟨rfl, rfl⟩
  · intro ops1 ops2 q0 hq0 hq0s
    have hinv1 := Queue.sq_inv_run ops1
    obtain ⟨h1, h2, h3, h4, h5, h6, h7, h8, h9⟩ := hinv1
    have hrw : Queue.sq_run (ops1 ++ Queue.SQOp.add true :: ops2) =
        ops2.foldl Queue.sq_step
          (Queue.sq_step (Queue.sq_run ops1) (Queue.SQOp.add true)) := by
      unfold Queue.sq_run
      rw [List.foldl_append]
      rfl
    -- the queue is busy, otherwise it would be empty and q0 could not be in it
    have hbusy : (Queue.sq_run ops1).is_busy = true := by
      cases hbv : (Queue.sq_run ops1).is_busy
      · rw [h3 (by simp [hbv])] at hq0
        cases hq0
      · rfl
    -- establish RelP after the on_top add
    have hrel : Queue.RelP
        (Queue.sq_step (Queue.sq_run ops1) (Queue.SQOp.add true))
        ⟨(Queue.sq_run ops1).next_idx, true⟩ q0 := by
      show Queue.RelP (Queue.add_task (Queue.sq_run ops1) true) _ _
      rw [Queue.add_task_busy _ true hbusy]
      refine ⟨by simp, Nat.lt_succ_of_lt
        (h8 q0 (List.mem_append.mpr (Or.inl hq0))), ?_⟩
      obtain ⟨s, t2, hdec⟩ := List.append_of_mem hq0
      refine Or.inl ⟨⟨s, t2, [], ?_⟩, ?_, ?_⟩
      · show (Queue.sq_run ops1).queue ++
          [(⟨(Queue.sq_run ops1).next_idx, true⟩ : Queue.Task)] = _
        rw [hdec]
        simp
      · intro hmem
        have := h8 _ (List.mem_append.mpr (Or.inr hmem))
        simp at this
      · intro hmem
        rw [List.map_append] at h9
        have hdis := (List.nodup_append.mp h9).2.2
        have hin1 : q0.idx ∈ (Queue.sq_run ops1).queue.map Queue.Task.idx :=
          List.mem_map.mpr ⟨q0, hq0, rfl⟩
        exact (hdis hin1) (List.mem_map.mpr ⟨q0, hmem, rfl⟩)
    have hinv2 := Queue.sq_inv_step (Queue.sq_run ops1) (Queue.SQOp.add true)
      (Queue.sq_inv_run ops1)
    have hfinal := Queue.relp_run ops2 _ _ _ hinv2 hrel
    rw [← hrw] at hfinal
    exact Queue.relp_sound _ _ _ hfinal hq0s

/-- Witness for C5_queue_single_flight_and_order at a concrete run: two
default tasks and an on_top task; the on_top task (index 2) starts before
the still-pending default task (index 1). -/
theorem C5_queue_single_flight_and_order_witness :
    Queue.startedBefore
      (Queue.sq_run ([Queue.SQOp.add false, Queue.SQOp.add false] ++
        Queue.SQOp.add true :: [Queue.SQOp.finish, Queue.SQOp.finish]))
      ⟨2, true⟩ ⟨1, false⟩ := by
  refine C5_queue_single_flight_and_order.2.2
    [Queue.SQOp.add false, Queue.SQOp.add false]
    [Queue.SQOp.finish, Queue.SQOp.finish] ⟨1, false⟩ ?_ ?_ <;> decide

/-- Claim C4 (code bug): a message with a known sequence number S is fed
only to the request registered under S (every other pending request is
unchanged, for arbitrary request callbacks); but on a message whose
sequence number is not a key of the pending-requests map the handler does
NOT log-and-drop: the warning it builds calls pending_requests.key(),
which does not exist on dict (the method is keys()), so an AttributeError
is raised, although the pending map is indeed left unchanged. -/
theorem C4_unknown_seq_raises :
    (∀ (R : Type) (cb : Dispatch.ReqCallbacks R) (st : Dispatch.SIState R)
        (msg : Dispatch.LMsg) (s2 : Nat), ¬s2 = msg.seq_num →
        Dispatch.getReq (Dispatch.on_lean_message cb st msg).1 s2 =
          Dispatch.getReq st s2) ∧
    Dispatch.on_lean_message Dispatch.trivialCallbacks Dispatch.stateWithReq5
        Dispatch.msgSeq3 =
      (Dispatch.stateWithReq5,
       some "AttributeError: dict object has no attribute key") := by
  constructor
  · intro R cb st msg s2 h
    unfold Dispatch.on_lean_message
    by_cases hmem :
        (st.pending_requests.find? (fun p => p.1 = msg.seq_num)).isSome
    · simp only [hmem, if_true]
      by_cases hlf : st.has_lean_file
      · simp only [hlf, not_true, if_false]
        cases hreq : Dispatch.getReq st msg.seq_num with
        | none => simp
        | some req =>
          simp only
          cases hsev : msg.severity with
          | error =>
            unfold Dispatch.filter_error
            by_cases hps : cb.is_proof_step req <;>
              simp [hps, Dispatch.getReq_check_request_complete_ne _ _ _ _ h,
                Dispatch.getReq_updReq_ne _ _ _ _ h] <;>
              split_ifs <;>
              simp [Dispatch.getReq_check_request_complete_ne _ _ _ _ h,
                Dispatch.getReq_error_channel]
          | warning =>
            simp [Dispatch.getReq_check_request_complete_ne _ _ _ _ h]
          | info =>
            simp only
            split_ifs <;>
              simp [Dispatch.getReq_check_request_complete_ne _ _ _ _ h,
                Dispatch.getReq_updReq_ne _ _ _ _ h]
      · simp [hlf]
    · simp [hmem]
  · rfl

/-- Witness for the general frame part of C4_unknown_seq_raises. -/
theorem C4_unknown_seq_raises_witness :
    Dispatch.getReq
        (Dispatch.on_lean_message Dispatch.trivialCallbacks
          Dispatch.stateWithReq5 Dispatch.msgSeq3).1 7 =
      Dispatch.getReq Dispatch.stateWithReq5 7 :=
  C4_unknown_seq_raises.1 Unit Dispatch.trivialCallbacks
    Dispatch.stateWithReq5 Dispatch.msgSeq3 7 (by decide)

/-- Claim C1 (code bug evaluation): on atomicityTree, insert fails (returns
no metavariable) and yet the tree has changed: the assignments of the
children with ids 3 and 4 (NUMBER 2 and NUMBER 3) have been cleared by the
displaced-children loop of re_assign, exactly the behaviour the source
FIXME at lines 1290-1291 questions. -/
theorem C1_insert_failure_mutates :
    (Marked.insert Marked.atomicityTree 10).1 = none ∧
    Marked.assignedOf Marked.atomicityTree.ar 3 = some 7 ∧
    Marked.assignedOf Marked.atomicityTree.ar 4 = some 8 ∧
    Marked.assignedOf (Marked.insert Marked.atomicityTree 10).2.ar 3 = none ∧
    Marked.assignedOf (Marked.insert Marked.atomicityTree 10).2.ar 4 = none := by
  refine ⟨?_, rfl, rfl, ?_, ?_⟩ <;> rfl

/-- Claim C8: adjacent NUMBER/POINT fragments merge by string
concatenation: inserting NUMBER 2 at a marked node holding NUMBER 1 yields
the single NUMBER value 12; inserting POINT then NUMBER 5 after NUMBER 3
yields the value 3.5; and a merge that would produce two decimal points is
rejected, with insert_number returning no merge and the state unchanged. -/
theorem C8_number_point_merge :
    (Marked.insert_number Marked.numberTree1 2).1 = some 0 ∧
    Marked.valueOf (Marked.insert_number Marked.numberTree1 2).2.ar 1 =
      some "12" ∧
    Marked.valueOf Marked.numberTree3p.ar 1 = some "3." ∧
    Marked.valueOf Marked.numberTree35.ar 1 = some "3.5" ∧
    (Marked.insert_number Marked.numberTree35 2).1 = none ∧
    (Marked.insert_number Marked.numberTree35 2).2 = Marked.numberTree35 := by
  refine ⟨rfl, rfl, rfl, rfl, rfl, ?_⟩
  decide

/-- Counterexample for claim C9: in the tree SUM(?1, NUMBER=1) with the
cursor at the metavariable ?1, no unassigned metavariable lies right of
the cursor, yet move_right_to_next_unassigned is not a no-op: it moves the
mark to the SUM node itself (id 0), which is not a metavariable, because
next_unassigned only filters on is_assigned. -/
theorem C9_moves_to_non_metavar :
    ((Marked.total_and_cursor_list Marked.sumTreeMvarMarked.ar
        (Marked.arenaFuel Marked.sumTreeMvarMarked.ar)
        Marked.sumTreeMvarMarked.root).drop 1).filter
      (fun e => Marked.is_metavar Marked.sumTreeMvarMarked.ar e.1 &&
        !Marked.is_assigned Marked.sumTreeMvarMarked.ar e.1) = [] ∧
    Marked.marked_descendant Marked.sumTreeMvarMarked.ar
      (Marked.arenaFuel Marked.sumTreeMvarMarked.ar)
      Marked.sumTreeMvarMarked.root = some 1 ∧
    Marked.marked_descendant
      (Marked.move_right_to_next_unassigned Marked.sumTreeMvarMarked).ar
      (Marked.arenaFuel Marked.sumTreeMvarMarked.ar)
      Marked.sumTreeMvarMarked.root = some 0 ∧
    Marked.is_metavar
      (Marked.move_right_to_next_unassigned Marked.sumTreeMvarMarked).ar 0 =
      false := by
  refine ⟨?_, rfl, ?_, rfl⟩ <;> rfl

/-- Counterexample for claim C6: after move_right_to_next_unassigned on
sumTreeRootMarked the mark sits on the NUMBER node (true index 2) but the
root cache still holds the stale pre-jump index 1; the next
appears_right_of_cursor query answers with the stale index: it reports the
NUMBER node (the marked node itself) as lying right of the cursor although
no entry after the true index matches it. -/
theorem C6_stale_cache_used :
    Marked.sumTreeAfterMoveRight.cache = some 1 ∧
    Marked.compute_index { Marked.sumTreeAfterMoveRight with cache := none } = 2 ∧
    (Marked.appears_right_of_cursor Marked.sumTreeAfterMoveRight 2).1 = true ∧
    ((Marked.total_and_cursor_list Marked.sumTreeAfterMoveRight.ar
        (Marked.arenaFuel Marked.sumTreeAfterMoveRight.ar)
        Marked.sumTreeAfterMoveRight.root).drop (2 + 1)).any
      (fun e => e.1 = 2) = false := by
  refine ⟨rfl, ?_, rfl, rfl⟩
  rfl

/-- Counterexample for claim C2: on detachTree the marked node is the
metavariable with id 8, deep inside the tree; inserting the SUM pattern
succeeds (it returns the metavariable id 2), but the re-assignment cleared
the assignment that connected id 8 to the tree, so afterwards no marked
descendant exists at all: the single-mark count drops to zero. -/
theorem C2_insert_detaches_mark :
    Marked.marked_descendant Marked.detachTree.ar
      (Marked.arenaFuel Marked.detachTree.ar) Marked.detachTree.root =
      some 8 ∧
    (Marked.insert Marked.detachTree 11).1 = some 2 ∧
    Marked.marked_descendant (Marked.insert Marked.detachTree 11).2.ar
      (Marked.arenaFuel (Marked.insert Marked.detachTree 11).2.ar)
      (Marked.insert Marked.detachTree 11).2.root = none := by
  refine ⟨rfl, ?_, ?_⟩ <;> rfl

/-- Claim C3: for a task whose wrapped function never completes within its
timeout, task_with_timeout runs the function exactly NB_TRIALS times (that
is, retries it exactly NB_TRIALS - 1 times), each retry with the doubled,
hence strictly larger, timeout; the per-task cancellation callback is
invoked exactly before each retry and not on final abandonment; and the
timeout-classified error signal is emitted exactly once, after the last
trial.  The whole event trace is computed explicitly. -/
theorem C3_timeout_retry_bound (started : Bool) (t0 : Nat)
    (ht0 : t0 = if started then Server.TIMEOUT else Server.STARTING_TIMEOUT)
    (responds : Nat → Nat → Bool)
    (hnever : ∀ n t, responds n t = false) :
    Server.task_with_timeout started responds true =
      [Server.QEvent.trial t0, Server.QEvent.cancelCallback,
       Server.QEvent.trial (2 * t0), Server.QEvent.timeoutError] ∧
    Server.countTrials (Server.task_with_timeout started responds true) =
      Server.NB_TRIALS ∧
    Server.countEv (Server.task_with_timeout started responds true)
      Server.QEvent.cancelCallback = Server.NB_TRIALS - 1 ∧
    Server.countEv (Server.task_with_timeout started responds true)
      Server.QEvent.timeoutError = 1 ∧
    t0 < 2 * t0 := by
  have hrun : Server.task_with_timeout started responds true =
      [Server.QEvent.trial t0, Server.QEvent.cancelCallback,
       Server.QEvent.trial (2 * t0), Server.QEvent.timeoutError] := by
    cases started <;>
      simp_all [Server.task_with_timeout, Server.NB_TRIALS,
        Server.task_with_timeout_loop, Server.STARTING_TIMEOUT, Server.TIMEOUT]
  refine ⟨hrun, ?_, ?_, ?_, ?_⟩ <;>
    cases started <;>
      simp_all [Server.countTrials, Server.countEv, Server.NB_TRIALS,
        Server.STARTING_TIMEOUT, Server.TIMEOUT, List.filter]

/-- Witness for C3_timeout_retry_bound at a concrete instance. -/
theorem C3_timeout_retry_bound_witness :
    Server.task_with_timeout false (fun _ _ => false) true =
      [Server.QEvent.trial 20, Server.QEvent.cancelCallback,
       Server.QEvent.trial 40, Server.QEvent.timeoutError] := by
  have h := C3_timeout_retry_bound false 20 (by decide)
    (fun _ _ => false) (fun _ _ => rfl)
  exact h.1

namespace Marked

theorem fold_phase1 (i : Nat) (A : List Nat) (hA : ∀ x ∈ A, ¬x = i) :
    ∀ l0 : List Nat, A.foldl (partition_step i) (l0, [], true, -1) =
      (l0 ++ A, [], true, -1) := by
  induction A with
  | nil => intro l0; simp
  | cons a rest ih =>
    intro l0
    have ha : ¬a = i := hA a (by simp)
    have hrest : ∀ x ∈ rest, ¬x = i := fun x hx => hA x (by simp [hx])
    rw [List.foldl_cons]
    show rest.foldl (partition_step i) (partition_step i (l0, [], true, -1) a) = _
    have hstep : partition_step i (l0, [], true, -1) a = (l0 ++ [a], [], true, -1) := by
      simp [partition_step, ha]
    rw [hstep, ih hrest (l0 ++ [a])]
    simp

theorem fold_phase2_noi (i : Nat) (D : List Nat) (hD : ∀ x ∈ D, ¬x = i) :
    ∀ (l c : List Nat) (idx : Int),
      D.foldl (partition_step i) (l, c, false, idx) = (l, c ++ D, false, idx) := by
  induction D with
  | nil => intro l c idx; simp
  | cons d rest ih =>
    intro l c idx
    have hd : ¬d = i := hD d (by simp)
    have hrest : ∀ x ∈ rest, ¬x = i := fun x hx => hD x (by simp [hx])
    rw [List.foldl_cons]
    show rest.foldl (partition_step i) (partition_step i (l, c, false, idx) d) = _
    have hstep : partition_step i (l, c, false, idx) d = (l, c ++ [d], false, idx) := by
      simp [partition_step, hd]
    rw [hstep, ih hrest]
    simp

theorem fold_phase2_general (i : Nat) (M : List Nat) :
    ∀ (l c : List Nat) (idx : Int), ∃ idx2 : Int,
      M.foldl (partition_step i) (l, c, false, idx) =
        (l, c ++ M.filter (fun x => ¬x = i), false, idx2) := by
  induction M with
  | nil => intro l c idx; exact ⟨idx, by simp⟩
  | cons m rest ih =>
    intro l c idx
    by_cases hm : m = i
    · rw [List.foldl_cons]
      have hstep : partition_step i (l, c, false, idx) m =
          (l, c, false, (c.length : Int)) := by
        simp [partition_step, hm]
      rw [hstep]
      obtain ⟨idx2, h2⟩ := ih l c (c.length : Int)
      refine ⟨idx2, ?_⟩
      rw [h2]
      simp [List.filter_cons, hm]
    · rw [List.foldl_cons]
      have hstep : partition_step i (l, c, false, idx) m =
          (l, c ++ [m], false, idx) := by
        simp [partition_step, hm]
      rw [hstep]
      obtain ⟨idx2, h2⟩ := ih l (c ++ [m]) idx
      refine ⟨idx2, ?_⟩
      rw [h2]
      simp [List.filter_cons, hm]

end Marked

namespace Marked

theorem fold_phase2_last (i : Nat) (C D : List Nat) (hD : ∀ x ∈ D, ¬x = i)
    (l c : List Nat) (idx : Int) :
    (C ++ i :: D).foldl (partition_step i) (l, c, false, idx) =
      (l, (c ++ C.filter (fun x => ¬x = i)) ++ D, false,
        (((c ++ C.filter (fun x => ¬x = i)).length : Nat) : Int)) := by
  rw [List.foldl_append]
  obtain ⟨idx2, h2⟩ := fold_phase2_general i C l c idx
  rw [h2, List.foldl_cons]
  have hstep : partition_step i (l, c ++ C.filter (fun x => ¬x = i), false, idx2) i =
      (l, c ++ C.filter (fun x => ¬x = i), false,
        (((c ++ C.filter (fun x => ¬x = i)).length : Nat) : Int)) := by
    simp [partition_step]
  rw [hstep, fold_phase2_noi i D hD]

theorem mem_split_first {i : Nat} {L : List Nat} (h : i ∈ L) :
    ∃ A B, L = A ++ i :: B ∧ ∀ x ∈ A, ¬x = i := by
  induction L with
  | nil => cases h
  | cons a rest ih =>
    by_cases ha : a = i
    · exact ⟨[], rest, by simp [ha], by simp⟩
    · have h2 : i ∈ rest := by
        rcases List.mem_cons.mp h with h1 | h1
        · exact absurd h1.symm ha
        · exact h1
      obtain ⟨A, B, hAB, hA⟩ := ih h2
      refine ⟨a :: A, B, by simp [hAB], ?_⟩
      intro x hx
      rcases List.mem_cons.mp hx with h1 | h1
      · simpa [h1] using ha
      · exact hA x h1

theorem mem_split_last {i : Nat} {L : List Nat} (h : i ∈ L) :
    ∃ C D, L = C ++ i :: D ∧ ∀ x ∈ D, ¬x = i := by
  have hrev : i ∈ L.reverse := List.mem_reverse.mpr h
  obtain ⟨A, B, hAB, hA⟩ := mem_split_first hrev
  refine ⟨B.reverse, A.reverse, ?_, ?_⟩
  · have := congrArg List.reverse hAB
    simpa using this
  · intro x hx
    exact hA x (List.mem_reverse.mp hx)

theorem takeWhile_split (i : Nat) (A B : List Nat) (hA : ∀ x ∈ A, ¬x = i) :
    (A ++ i :: B).takeWhile (fun c => ¬c = i) = A := by
  induction A with
  | nil => simp [List.takeWhile]
  | cons a rest ih =>
    have ha : ¬a = i := hA a (by simp)
    have hrest : ∀ x ∈ rest, ¬x = i := fun x hx => hA x (by simp [hx])
    rw [List.cons_append, List.takeWhile_cons_of_pos (by simpa using ha), ih hrest]

theorem filter_eq_self_of (i : Nat) (A : List Nat) (hA : ∀ x ∈ A, ¬x = i) :
    A.filter (fun c => ¬c = i) = A := by
  induction A with
  | nil => rfl
  | cons a rest ih =>
    have ha : ¬a = i := hA a (by simp)
    have hrest : ∀ x ∈ rest, ¬x = i := fun x hx => hA x (by simp [hx])
    rw [List.filter_cons_of_pos (by simpa using ha), ih hrest]

end Marked

namespace Marked

theorem partionned_children_eq_of_two (ar : Arena) (i : Nat)
    (A C D : List Nat)
    (hLeq : ordered_children ar i = A ++ i :: (C ++ i :: D))
    (hA : ∀ x ∈ A, ¬x = i) (hD : ∀ x ∈ D, ¬x = i) :
    partionned_children ar i = (A, C.filter (fun x => ¬x = i), D) := by
  have hfold : (ordered_children ar i).foldl (partition_step i)
      ([], [], true, -1) =
      (A, C.filter (fun x => ¬x = i) ++ D, false,
        (((C.filter (fun x => ¬x = i)).length : Nat) : Int)) := by
    rw [hLeq, List.foldl_append, fold_phase1 i A hA [], List.foldl_cons]
    have hstep : partition_step i ([] ++ A, [], true, -1) i =
        (A, [], false, -1) := by
      simp [partition_step]
    rw [hstep]
    have h2 := fold_phase2_last i C D hD A [] (-1)
    simpa using h2
  have hne : ¬(((C.filter (fun x => ¬x = i)).length : Nat) : Int) = -1 := by
    omega
  simp only [partionned_children, hfold, hne, if_false, if_neg, not_false_iff,
    if_true]
  simp [List.take_left, List.drop_left]

theorem partionned_children_eq_of_one (ar : Arena) (i : Nat)
    (A B : List Nat)
    (hLeq : ordered_children ar i = A ++ i :: B)
    (hA : ∀ x ∈ A, ¬x = i) (hB : ∀ x ∈ B, ¬x = i) :
    partionned_children ar i = (A, [], B) := by
  have hfold : (ordered_children ar i).foldl (partition_step i)
      ([], [], true, -1) = (A, B, false, -1) := by
    rw [hLeq, List.foldl_append, fold_phase1 i A hA [], List.foldl_cons]
    have hstep : partition_step i ([] ++ A, [], true, -1) i =
        (A, [], false, -1) := by
      simp [partition_step]
    rw [hstep]
    have h2 := fold_phase2_noi i B hB A [] (-1)
    simpa using h2
  simp only [partionned_children, hfold]
  rw [if_neg (by simp)]
  rw [if_neg (by simp)]

theorem partionned_children_eq_of_none (ar : Arena) (i : Nat)
    (hi : ¬i ∈ ordered_children ar i) :
    partionned_children ar i = ([], ordered_children ar i, []) := by
  have hL : ∀ x ∈ ordered_children ar i, ¬x = i := by
    intro x hx he
    exact hi (he ▸ hx)
  have hfold : (ordered_children ar i).foldl (partition_step i)
      ([], [], true, -1) = (ordered_children ar i, [], true, -1) := by
    have h2 := fold_phase1 i (ordered_children ar i) hL []
    simpa using h2
  simp [partionned_children, hfold]

end Marked


/-- C10: partionned_children splits ordered_children around the node itself:
the three parts concatenate, in order, to exactly the non-self items; the
left part is everything before the first self appearance and the right part
everything after the last; when the node never appears, left and right are
empty. -/
theorem C10_partionned_children (ar : Marked.Arena) (i : Nat) :
    (Marked.partionned_children ar i).1 ++ (Marked.partionned_children ar i).2.1 ++
        (Marked.partionned_children ar i).2.2 =
      (Marked.ordered_children ar i).filter (fun c => ¬c = i) ∧
    (¬i ∈ Marked.ordered_children ar i →
      (Marked.partionned_children ar i).1 = [] ∧
      (Marked.partionned_children ar i).2.2 = []) ∧
    (i ∈ Marked.ordered_children ar i →
      (Marked.partionned_children ar i).1 =
        (Marked.ordered_children ar i).takeWhile (fun c => ¬c = i) ∧
      (Marked.partionned_children ar i).2.2 =
        ((Marked.ordered_children ar i).reverse.takeWhile
          (fun c => ¬c = i)).reverse) := by
  by_cases hi : i ∈ Marked.ordered_children ar i
  · obtain ⟨A, B, hAB, hA⟩ := Marked.mem_split_first hi
    by_cases hiB : i ∈ B
    · obtain ⟨C, D, hCD, hD⟩ := Marked.mem_split_last hiB
      have hLeq : Marked.ordered_children ar i = A ++ i :: (C ++ i :: D) := by
        rw [hAB, hCD]
      have hres := Marked.partionned_children_eq_of_two ar i A C D hLeq hA hD
      have hDrev : ∀ x ∈ D.reverse, ¬x = i :=
        fun x hx => hD x (List.mem_reverse.mp hx)
      have hLrev : (Marked.ordered_children ar i).reverse =
          D.reverse ++ i :: (C.reverse ++ i :: A.reverse) := by
        rw [hLeq]
        simp
      refine ⟨?_, fun h => absurd hi h, fun _ => ⟨?_, ?_⟩⟩
      · rw [hres]
        show A ++ C.filter (fun x => ¬x = i) ++ D = _
        rw [hLeq, List.filter_append, List.filter_cons_of_neg (by simp),
          List.filter_append, List.filter_cons_of_neg (by simp),
          Marked.filter_eq_self_of i A hA, Marked.filter_eq_self_of i D hD,
          List.append_assoc]
      · rw [hres, hLeq, Marked.takeWhile_split i A (C ++ i :: D) hA]
      · rw [hres, hLrev,
          Marked.takeWhile_split i D.reverse (C.reverse ++ i :: A.reverse) hDrev]
        simp
    · have hB : ∀ x ∈ B, ¬x = i := fun x hx he => hiB (he ▸ hx)
      have hres := Marked.partionned_children_eq_of_one ar i A B hAB hA hB
      have hBrev : ∀ x ∈ B.reverse, ¬x = i :=
        fun x hx => hB x (List.mem_reverse.mp hx)
      have hLrev : (Marked.ordered_children ar i).reverse =
          B.reverse ++ i :: A.reverse := by
        rw [hAB]
        simp
      refine ⟨?_, fun h => absurd hi h, fun _ => ⟨?_, ?_⟩⟩
      · rw [hres]
        show A ++ [] ++ B = _
        rw [hAB, List.filter_append, List.filter_cons_of_neg (by simp),
          Marked.filter_eq_self_of i A hA, Marked.filter_eq_self_of i B hB]
        simp
      · rw [hres, hAB, Marked.takeWhile_split i A B hA]
      · rw [hres, hLrev, Marked.takeWhile_split i B.reverse A.reverse hBrev]
        simp
  · have hL : ∀ x ∈ Marked.ordered_children ar i, ¬x = i :=
      fun x hx he => hi (he ▸ hx)
    have hres := Marked.partionned_children_eq_of_none ar i hi
    refine ⟨?_, fun _ => ⟨?_, ?_⟩, fun h => absurd h hi⟩
    · rw [hres]
      show [] ++ Marked.ordered_children ar i ++ [] = _
      rw [Marked.filter_eq_self_of i _ hL]
      simp
    · rw [hres]
    · rw [hres]



/-- Witness for C10 at a concrete arena: the SUM tree, partitioned around
its root, whose ordered children are the left child, the root symbol, and
the right child. -/
theorem C10_partionned_children_witness :
    0 ∈ Marked.ordered_children Marked.sumTreeMvarMarked.ar 0 ∧
    (Marked.partionned_children Marked.sumTreeMvarMarked.ar 0).1 =
      (Marked.ordered_children Marked.sumTreeMvarMarked.ar 0).takeWhile
        (fun c => ¬c = 0) :=
  ⟨by decide,
    ((C10_partionned_children Marked.sumTreeMvarMarked.ar 0).2.2 (by decide)).1⟩


namespace Marked

theorem priority_loop_self_absent (self0 other : String) :
    ∀ (cs : List (List String)) (otherFound : Bool),
      (∀ l ∈ cs, ¬self0 ∈ l) →
      priority_loop self0 other cs false otherFound = none := by
  intro cs
  induction cs with
  | nil => intro oF _; rfl
  | cons nodes rest ih =>
    intro oF h
    have hs : ¬self0 ∈ nodes := h nodes (by simp)
    have hrest : ∀ l ∈ rest, ¬self0 ∈ l := fun l hl => h l (by simp [hl])
    by_cases ho : other ∈ nodes
    · simp only [priority_loop]
      simp [hs, ho]
      exact ih true hrest
    · simp only [priority_loop]
      simp [hs, ho]
      exact ih oF hrest

theorem priority_loop_other_absent (self0 other : String) :
    ∀ (cs : List (List String)) (selfFound : Bool),
      (∀ l ∈ cs, ¬other ∈ l) →
      priority_loop self0 other cs selfFound false = none := by
  intro cs
  induction cs with
  | nil => intro sF _; rfl
  | cons nodes rest ih =>
    intro sF h
    have ho : ¬other ∈ nodes := h nodes (by simp)
    have hrest : ∀ l ∈ rest, ¬other ∈ l := fun l hl => h l (by simp [hl])
    by_cases hs : self0 ∈ nodes
    · simp only [priority_loop]
      simp [hs, ho]
      exact ih true hrest
    · simp only [priority_loop]
      simp [hs, ho]
      exact ih sF hrest

theorem classIdx_none_not_mem {x : String} (h : classIdx x = none) :
    ∀ l ∈ priorities, ¬x ∈ l := by
  intro l hl
  have h2 := List.findIdx?_eq_none_iff.mp h l hl
  simpa using h2

theorem priority_none_of_absent (a b : String)
    (h : classIdx a = none ∨ classIdx b = none) : priority a b = none := by
  by_cases he : a = "" ∨ b = ""
  · simp [priority, he]
  · have hstep : priority a b = priority_loop a b priorities false false := by
      simp [priority, he]
    rw [hstep]
    rcases h with h | h
    · exact priority_loop_self_absent a b priorities false (classIdx_none_not_mem h)
    · exact priority_loop_other_absent a b priorities false (classIdx_none_not_mem h)

end Marked


/-- C7: the priority table gives equal precedence inside a class, tighter
binding for earlier classes and looser for later ones; a tag absent from
the table is incomparable with everything (None); and priority_tests passes
exactly when the new fragment is acceptable in place of mvar (test I: not
strictly looser than the parent as a left child, not looser-or-equal as a
right child) and mvar is acceptable as a child of the new fragment
(test II, by the side of the cursor); incomparable pairs constrain
nothing. -/
theorem C7_priority_rules :
    (∀ i j : Fin Marked.priorities.length,
      ∀ a ∈ Marked.priorities.get i, ∀ b ∈ Marked.priorities.get j,
      Marked.priority a b =
        some (if (i : Nat) = (j : Nat) then '=' else
          if (i : Nat) < (j : Nat) then '>' else '<')) ∧
    (∀ a b : String, Marked.classIdx a = none ∨ Marked.classIdx b = none →
      Marked.priority a b = none) ∧
    (∀ (st : Marked.RState) (new_pmo mvar parent : Nat),
      ((Marked.priority_tests st new_pmo mvar (some parent)).1 = true ↔
        (((mvar ∈ (Marked.partionned_children st.ar parent).1 →
            ¬Marked.priority (Marked.nodeOf st.ar parent)
              (Marked.nodeOf st.ar new_pmo) = some '>') ∧
          (¬mvar ∈ (Marked.partionned_children st.ar parent).1 →
            mvar ∈ (Marked.partionned_children st.ar parent).2.2 →
            ¬(Marked.priority (Marked.nodeOf st.ar parent)
                (Marked.nodeOf st.ar new_pmo) = some '=' ∨
              Marked.priority (Marked.nodeOf st.ar parent)
                (Marked.nodeOf st.ar new_pmo) = some '>'))) ∧
         (((Marked.appears_left_of_cursor st mvar).1 = true →
            ¬Marked.priority (Marked.nodeOf st.ar new_pmo)
              (Marked.nodeOf st.ar mvar) = some '>') ∧
          ((Marked.appears_left_of_cursor st mvar).1 = false →
            ¬(Marked.priority (Marked.nodeOf st.ar new_pmo)
                (Marked.nodeOf st.ar mvar) = some '=' ∨
              Marked.priority (Marked.nodeOf st.ar new_pmo)
                (Marked.nodeOf st.ar mvar) = some '>')))))) := by
  refine ⟨by decide, fun a b h => Marked.priority_none_of_absent a b h, ?_⟩
  intro st new_pmo mvar parent
  rcases hpc : Marked.partionned_children st.ar parent with ⟨left, central, right⟩
  simp only [Marked.priority_tests, hpc]
  by_cases hml : mvar ∈ left
  · by_cases hp1 : Marked.priority (Marked.nodeOf st.ar parent)
        (Marked.nodeOf st.ar new_pmo) = some '>'
    · simp [hml, hp1]
    · by_cases hl : (Marked.appears_left_of_cursor st mvar).1 = true
      · simp [hml, hp1, hl]
      · simp [hml, hp1, hl]
  · by_cases hmr : mvar ∈ right
    · by_cases hp1 : Marked.priority (Marked.nodeOf st.ar parent)
          (Marked.nodeOf st.ar new_pmo) = some '=' ∨
          Marked.priority (Marked.nodeOf st.ar parent)
            (Marked.nodeOf st.ar new_pmo) = some '>'
      · simp [hml, hmr, hp1]
      · by_cases hl : (Marked.appears_left_of_cursor st mvar).1 = true
        · simp [hml, hmr, hp1, hl]
        · simp [hml, hmr, hp1, hl]
    · by_cases hl : (Marked.appears_left_of_cursor st mvar).1 = true
      · simp [hml, hmr, hl]
      · simp [hml, hmr, hl]



/-- Witness for C7: MULT (class 2) binds strictly tighter than SUM
(class 3). -/
theorem C7_priority_rules_witness :
    Marked.priority "MULT" "SUM" = some '>' := by
  have h := C7_priority_rules.1 ⟨2, by decide⟩ ⟨3, by decide⟩
    "MULT" (by decide) "SUM" (by decide)
  simpa using h



namespace Marked

theorem map_fst_setN (ar : Arena) (i : Nat) (f : Node → Node) :
    (setN ar i f).map (fun p => p.1) = ar.map (fun p => p.1) := by
  induction ar with
  | nil => rfl
  | cons a rest ih =>
    by_cases h : a.1 = i
    · simp [setN, h] at ih ⊢
      exact ih
    · simp [setN, h] at ih ⊢
      exact ih

theorem arenaFuel_setN (ar : Arena) (i : Nat) (f : Node → Node) :
    arenaFuel (setN ar i f) = arenaFuel ar := by
  simp [arenaFuel, setN]

theorem getN_setN_self (ar : Arena) (m : Nat) (f : Node → Node) :
    getN (setN ar m f) m = (getN ar m).map f := by
  induction ar with
  | nil => rfl
  | cons a rest ih =>
    by_cases h : a.1 = m
    · rw [show setN (a :: rest) m f = (a.1, f a.2) :: setN rest m f by
        simp [setN, h]]
      unfold getN
      rw [List.find?_cons_of_pos _ (by simp [h]),
        List.find?_cons_of_pos _ (by simp [h])]
      rfl
    · rw [show setN (a :: rest) m f = a :: setN rest m f by simp [setN, h]]
      unfold getN at ih ⊢
      rw [List.find?_cons_of_neg _ (by simp [h]),
        List.find?_cons_of_neg _ (by simp [h])]
      exact ih

theorem getN_setN_ne (ar : Arena) (m i : Nat) (f : Node → Node) (h : ¬i = m) :
    getN (setN ar m f) i = getN ar i := by
  induction ar with
  | nil => rfl
  | cons a rest ih =>
    by_cases ha : a.1 = m
    · have ha2 : ¬a.1 = i := by
        intro he
        exact h (by rw [← he, ha])
      rw [show setN (a :: rest) m f = (a.1, f a.2) :: setN rest m f by
        simp [setN, ha]]
      unfold getN at ih ⊢
      rw [List.find?_cons_of_neg _ (by simp [ha2]),
        List.find?_cons_of_neg _ (by simp [ha2])]
      exact ih
    · rw [show setN (a :: rest) m f = a :: setN rest m f by simp [setN, ha]]
      by_cases ha2 : a.1 = i
      · unfold getN
        rw [List.find?_cons_of_pos _ (by simp [ha2]),
          List.find?_cons_of_pos _ (by simp [ha2])]
      · unfold getN at ih ⊢
        rw [List.find?_cons_of_neg _ (by simp [ha2]),
          List.find?_cons_of_neg _ (by simp [ha2])]
        exact ih

theorem resolveN_setN_cursor (ar : Arena) (m : Nat) (c : Option Int) :
    ∀ (fuel i : Nat),
      resolveN (setN ar m (fun nd => { nd with cursorPos := c })) fuel i =
        resolveN ar fuel i := by
  intro fuel
  induction fuel with
  | zero => intro i; rfl
  | succ n ih =>
    intro i
    by_cases h : i = m
    · subst h
      simp only [resolveN, getN_setN_self]
      cases hg : getN ar i with
      | none => simp [hg]
      | some nd =>
        simp only [hg, Option.map_some]
        cases hassign : nd.assigned with
        | none => simp [hassign]
        | some j => simp [hassign, ih j]
    · simp only [resolveN, getN_setN_ne ar m i _ h]
      cases hg : getN ar i with
      | none => rfl
      | some nd =>
        cases hassign : nd.assigned with
        | none => simp [hassign]
        | some j => simp [hassign, ih j]

theorem shapeOf_setN_cursor (ar : Arena) (m : Nat) (c : Option Int) (i : Nat) :
    shapeOf (setN ar m (fun nd => { nd with cursorPos := c })) i =
      shapeOf ar i := by
  simp only [shapeOf, arenaFuel_setN, resolveN_setN_cursor]
  by_cases h : resolveN ar (arenaFuel ar) i = m
  · rw [h, getN_setN_self]
    cases getN ar m with
    | none => rfl
    | some nd => rfl
  · rw [getN_setN_ne ar m _ _ h]

theorem marked_ids_setN_clear (ar : Arena) (i : Nat) :
    marked_ids (setN ar i (fun nd => { nd with cursorPos := none })) =
      (marked_ids ar).filter (fun x => ¬x = i) := by
  induction ar with
  | nil => rfl
  | cons a rest ih =>
    by_cases h : a.1 = i
    · by_cases hm : (a.2.cursorPos).isSome
      · simp [marked_ids, setN, List.filter_cons, h, hm] at ih ⊢
        exact ih
      · simp [marked_ids, setN, List.filter_cons, h, hm] at ih ⊢
        exact ih
    · by_cases hm : (a.2.cursorPos).isSome
      · simp [marked_ids, setN, List.filter_cons, h, hm] at ih ⊢
        exact ih
      · simp [marked_ids, setN, List.filter_cons, h, hm] at ih ⊢
        exact ih

theorem setN_not_mem (ar : Arena) (i : Nat) (f : Node → Node)
    (h : ¬i ∈ ar.map (fun p => p.1)) : setN ar i f = ar := by
  induction ar with
  | nil => rfl
  | cons a rest ih =>
    have h1 : ¬a.1 = i := by
      intro he
      exact h (by simp [he])
    have h2 : ¬i ∈ rest.map (fun p => p.1) := by
      intro hm
      exact h (by simp [hm])
    rw [show setN (a :: rest) i f = a :: setN rest i f by simp [setN, h1]]
    rw [ih h2]

theorem marked_ids_setN_mark (ar : Arena) (i : Nat) (f : Node → Node)
    (hf : ∀ nd, ((f nd).cursorPos).isSome = true)
    (hz : marked_ids ar = [])
    (hnd : (ar.map (fun p => p.1)).Nodup)
    (hmem : i ∈ ar.map (fun p => p.1)) :
    marked_ids (setN ar i f) = [i] := by
  induction ar with
  | nil => cases hmem
  | cons a rest ih =>
    have hnd2 := hnd
    rw [List.map_cons] at hnd2
    have hpair := List.nodup_cons.mp hnd2
    have hz1 : ¬(a.2.cursorPos).isSome := by
      intro hm
      rw [show marked_ids (a :: rest) = a.1 :: marked_ids rest by
        simp [marked_ids, List.filter_cons, hm]] at hz
      cases hz
    have hz2 : marked_ids rest = [] := by
      rwa [show marked_ids (a :: rest) = marked_ids rest by
        simp [marked_ids, List.filter_cons, hz1]] at hz
    by_cases h : a.1 = i
    · have hni : ¬i ∈ rest.map (fun p => p.1) := by
        rw [← h]
        exact hpair.1
      rw [show setN (a :: rest) i f = (a.1, f a.2) :: setN rest i f by
        simp [setN, h]]
      rw [setN_not_mem rest i f hni]
      rw [show marked_ids ((a.1, f a.2) :: rest) = a.1 :: marked_ids rest by
        simp [marked_ids, List.filter_cons, hf a.2]]
      rw [hz2, h]
    · have hmem2 : i ∈ rest.map (fun p => p.1) := by
        have hmem3 := hmem
        rw [List.map_cons] at hmem3
        rcases List.mem_cons.mp hmem3 with h1 | h1
        · exact absurd h1.symm h
        · exact h1
      rw [show setN (a :: rest) i f = a :: setN rest i f by simp [setN, h]]
      rw [show marked_ids (a :: setN rest i f) = marked_ids (setN rest i f) by
        simp [marked_ids, List.filter_cons, hz1]]
      exact ih hz2 hpair.2 hmem2

end Marked


/-- C2 (amended): set_cursor_at preserves the single-mark invariant.  If
exactly one arena node m is marked and the walk from the root finds it,
then after set_cursor_at(mvar, pos) exactly mvar is marked, for any target
mvar of the arena, provided an explicit position is given or the target's
shape has a main symbol. -/
theorem C2_single_mark_set_cursor (st : Marked.RState) (m mvar : Nat)
    (pos : Option Int)
    (hm : Marked.marked_ids st.ar = [m])
    (hmd : Marked.marked_descendant st.ar (Marked.arenaFuel st.ar) st.root =
      some m)
    (hnd : (st.ar.map (fun p => p.1)).Nodup)
    (hmem : mvar ∈ st.ar.map (fun p => p.1))
    (hms : pos.isSome = true ∨
      (Marked.main_symbol_idx (Marked.shapeOf st.ar mvar)).isSome = true) :
    Marked.marked_ids (Marked.set_cursor_at st mvar pos).ar = [mvar] := by
  have hclear : Marked.marked_ids
      (Marked.setN st.ar m (fun nd => { nd with cursorPos := none })) = [] := by
    rw [Marked.marked_ids_setN_clear, hm]
    simp
  have hids : (Marked.setN st.ar m
        (fun nd => { nd with cursorPos := none })).map (fun p => p.1) =
      st.ar.map (fun p => p.1) := Marked.map_fst_setN _ _ _
  cases pos with
  | some p =>
    have hrw : Marked.set_cursor_at st mvar (some p) =
        { st with ar := (Marked.setN
            (Marked.setN st.ar m (fun nd => { nd with cursorPos := none }))
            mvar (fun nd => { nd with cursorPos := some p })) } := by
      simp only [Marked.set_cursor_at, hmd]
    rw [hrw]
    exact Marked.marked_ids_setN_mark
      (Marked.setN st.ar m (fun nd => { nd with cursorPos := none }))
      mvar (fun nd => { nd with cursorPos := some p })
      (by intro nd; rfl) hclear
      (by rw [hids]; exact hnd) (by rw [hids]; exact hmem)
  | none =>
    rcases hms with hps | hmsym
    · simp at hps
    · obtain ⟨k, hk⟩ := Option.isSome_iff_exists.mp hmsym
      have hshape : Marked.shapeOf
          (Marked.setN st.ar m (fun nd => { nd with cursorPos := none }))
            mvar = Marked.shapeOf st.ar mvar :=
        Marked.shapeOf_setN_cursor _ _ _ _
      have hrw : Marked.set_cursor_at st mvar none =
          { st with ar := (Marked.setN
              (Marked.setN st.ar m (fun nd => { nd with cursorPos := none }))
              mvar (fun nd => { nd with cursorPos := some (k : Int) })) } := by
        simp only [Marked.set_cursor_at, hmd, Marked.set_cursor_at_main_symbol]
        rw [hshape, hk]
        simp
      rw [hrw]
      exact Marked.marked_ids_setN_mark
        (Marked.setN st.ar m (fun nd => { nd with cursorPos := none }))
        mvar (fun nd => { nd with cursorPos := some (k : Int) })
        (by intro nd; rfl) hclear
        (by rw [hids]; exact hnd) (by rw [hids]; exact hmem)

/-- Witness for the amended C2 theorem: moving the cursor from the marked
metavariable of the SUM tree to its NUMBER child leaves exactly that child
marked. -/
theorem C2_single_mark_set_cursor_witness :
    Marked.marked_ids
      (Marked.set_cursor_at Marked.sumTreeMvarMarked 2 (some 0)).ar = [2] :=
  C2_single_mark_set_cursor Marked.sumTreeMvarMarked 1 2 (some 0)
    (by decide) (by decide) (by decide) (by decide) (Or.inl (by decide))


namespace Marked

theorem head?_filter {α : Type} (p : α → Bool) (l : List α) (e : α)
    (h : (l.filter p).head? = some e) :
    ∃ k, l.get? k = some e ∧ p e = true ∧
      ∀ j ej, j < k → l.get? j = some ej → p ej = false := by
  induction l with
  | nil => cases h
  | cons a rest ih =>
    by_cases hp : p a
    · rw [List.filter_cons_of_pos hp] at h
      have he : e = a := by
        simpa using h.symm
      subst he
      exact ⟨0, rfl, hp, fun j ej hj _ => absurd hj (Nat.not_lt_zero j)⟩
    · rw [List.filter_cons_of_neg hp] at h
      obtain ⟨k, hk, hpe, hbefore⟩ := ih h
      refine ⟨k + 1, by simpa using hk, hpe, ?_⟩
      intro j ej hj hget
      cases j with
      | zero =>
        have : ej = a := by simpa using hget.symm
        subst this
        simpa using hp
      | succ j2 =>
        exact hbefore j2 ej (Nat.lt_of_succ_lt_succ hj) (by simpa using hget)

theorem getLast?_filter {α : Type} (p : α → Bool) (l : List α) (e : α)
    (h : (l.filter p).getLast? = some e) :
    ∃ k, l.reverse.get? k = some e ∧ p e = true ∧
      ∀ j ej, j < k → l.reverse.get? j = some ej → p ej = false := by
  apply head?_filter p l.reverse e
  rw [List.filter_reverse, List.head?_reverse]
  exact h

theorem current_index_frame (st : RState) :
    ((current_index_in_total_list st).2).ar = st.ar ∧
      ((current_index_in_total_list st).2).root = st.root := by
  unfold current_index_in_total_list
  cases st.cache with
  | none => exact ⟨rfl, rfl⟩
  | some c =>
    by_cases h : ¬c = 0
    · simp [h]
    · simp [h]

end Marked


/-- C9 (amended): move_right_to_next_unassigned targets the nearest node
after the current cursor index in the total list whose assignment is
empty, metavariable or not, and leaves the tree untouched when every node
to the right is assigned; symmetrically on the left (right-to-left
nearest, through the reversed prefix). -/
theorem C9_moves_to_nearest_unassigned (st : Marked.RState) :
    ((Marked.next_unassigned st).1 = none →
      (Marked.move_right_to_next_unassigned st).ar = st.ar ∧
      (Marked.move_right_to_next_unassigned st).root = st.root) ∧
    (∀ m, (Marked.next_unassigned st).1 = some m →
      Marked.move_right_to_next_unassigned st =
        Marked.set_cursor_at (Marked.next_unassigned st).2 m none ∧
      ∃ k e,
        ((Marked.total_and_cursor_list st.ar (Marked.arenaFuel st.ar)
              st.root).drop
            ((Marked.current_index_in_total_list st).1 + 1).toNat).get? k =
          some e ∧
        e.1 = m ∧ Marked.is_assigned st.ar e.1 = false ∧
        ∀ j ej, j < k →
          ((Marked.total_and_cursor_list st.ar (Marked.arenaFuel st.ar)
                st.root).drop
              ((Marked.current_index_in_total_list st).1 + 1).toNat).get? j =
            some ej →
          Marked.is_assigned st.ar ej.1 = true) ∧
    ((Marked.previous_unassigned st).1 = none →
      (Marked.move_left_to_previous_unassigned st).ar = st.ar ∧
      (Marked.move_left_to_previous_unassigned st).root = st.root) ∧
    (∀ m, (Marked.previous_unassigned st).1 = some m →
      Marked.move_left_to_previous_unassigned st =
        Marked.set_cursor_at (Marked.previous_unassigned st).2 m none ∧
      ∃ k e,
        ((Marked.pySliceTo
              (Marked.total_and_cursor_list st.ar (Marked.arenaFuel st.ar)
                st.root)
              (Marked.current_index_in_total_list st).1).reverse).get? k =
          some e ∧
        e.1 = m ∧ Marked.is_assigned st.ar e.1 = false ∧
        ∀ j ej, j < k →
          ((Marked.pySliceTo
                (Marked.total_and_cursor_list st.ar (Marked.arenaFuel st.ar)
                  st.root)
                (Marked.current_index_in_total_list st).1).reverse).get? j =
            some ej →
          Marked.is_assigned st.ar ej.1 = true) := by
  refine ⟨?_, ?_, ?_, ?_⟩
  · intro h
    have hmr : Marked.move_right_to_next_unassigned st =
        (Marked.next_unassigned st).2 := by
      simp only [Marked.move_right_to_next_unassigned]
      rw [h]
    rw [hmr]
    exact Marked.current_index_frame st
  · intro m hm
    constructor
    · simp only [Marked.move_right_to_next_unassigned]
      rw [hm]
    · rw [show (Marked.next_unassigned st).1 =
          (((Marked.total_and_cursor_list st.ar (Marked.arenaFuel st.ar)
                st.root).drop
              ((Marked.current_index_in_total_list st).1 + 1).toNat).filter
            (fun e => ¬Marked.is_assigned st.ar e.1)).head?.map
            (fun e => e.1) from rfl] at hm
      obtain ⟨e, he, hme⟩ := Option.map_eq_some'.mp hm
      obtain ⟨k, hk, hpe, hbefore⟩ := Marked.head?_filter _ _ _ he
      refine ⟨k, e, hk, hme, by simpa using hpe, ?_⟩
      intro j ej hj hget
      have := hbefore j ej hj hget
      simpa using this
  · intro h
    have hml : Marked.move_left_to_previous_unassigned st =
        (Marked.previous_unassigned st).2 := by
      simp only [Marked.move_left_to_previous_unassigned]
      rw [h]
    rw [hml]
    exact Marked.current_index_frame st
  · intro m hm
    constructor
    · simp only [Marked.move_left_to_previous_unassigned]
      rw [hm]
    · rw [show (Marked.previous_unassigned st).1 =
          ((Marked.pySliceTo
              (Marked.total_and_cursor_list st.ar (Marked.arenaFuel st.ar)
                st.root)
              (Marked.current_index_in_total_list st).1).filter
            (fun e => ¬Marked.is_assigned st.ar e.1)).getLast?.map
            (fun e => e.1) from rfl] at hm
      obtain ⟨e, he, hme⟩ := Option.map_eq_some'.mp hm
      obtain ⟨k, hk, hpe, hbefore⟩ := Marked.getLast?_filter _ _ _ he
      refine ⟨k, e, hk, hme, by simpa using hpe, ?_⟩
      intro j ej hj hget
      have := hbefore j ej hj hget
      simpa using this



/-- Witness for the amended C9 theorem: in the SUM tree with the root
marked, the next unassigned node is the NUMBER child (id 2) and the move
re-marks it via set_cursor_at. -/
theorem C9_moves_to_nearest_unassigned_witness :
    Marked.move_right_to_next_unassigned Marked.sumTreeRootMarked =
      Marked.set_cursor_at
        (Marked.next_unassigned Marked.sumTreeRootMarked).2 2 none :=
  ((C9_moves_to_nearest_unassigned Marked.sumTreeRootMarked).2.1 2
    (by decide)).1


namespace Marked

theorem current_index_cached (st : RState) (c : Int)
    (hc : st.cache = some c) (h0 : ¬c = 0) :
    (current_index_in_total_list st).1 = c := by
  unfold current_index_in_total_list
  rw [hc]
  simp [h0]

theorem current_index_fresh (st : RState)
    (h : st.cache = none ∨ st.cache = some 0 ∨
      st.cache = some (compute_index st)) :
    (current_index_in_total_list st).1 = compute_index st := by
  unfold current_index_in_total_list
  rcases h with h | h | h
  · rw [h]
  · rw [h]
    simp
  · rw [h]
    by_cases h0 : ¬compute_index st = 0
    · simp [h0]
    · simp [h0]

end Marked

/-- C6 (amended): the appears-left/right queries answer by position
relative to current_index_in_total_list(), which reuses any truthy cached
index as it stands (tree mutations never invalidate the cache) and only
recomputes the true index when the cache holds None or 0 (or happens to
hold the true index already). -/
theorem C6_appears_queries_follow_cache (st : Marked.RState) (other : Nat) :
    ((st.cache = none ∨ st.cache = some 0 ∨
        st.cache = some (Marked.compute_index st)) →
      (Marked.appears_right_of_cursor st other).1 =
        ((Marked.total_and_cursor_list st.ar (Marked.arenaFuel st.ar)
            st.root).drop
          (Marked.compute_index st + 1).toNat).any (fun e => e.1 = other) ∧
      (Marked.appears_left_of_cursor st other).1 =
        ((Marked.total_and_cursor_list st.ar (Marked.arenaFuel st.ar)
            st.root).take
          (Marked.compute_index st + 1).toNat).any (fun e => e.1 = other)) ∧
    (∀ c : Int, st.cache = some c → ¬c = 0 →
      (Marked.appears_right_of_cursor st other).1 =
        ((Marked.total_and_cursor_list st.ar (Marked.arenaFuel st.ar)
            st.root).drop
          (c + 1).toNat).any (fun e => e.1 = other) ∧
      (Marked.appears_left_of_cursor st other).1 =
        ((Marked.total_and_cursor_list st.ar (Marked.arenaFuel st.ar)
            st.root).take
          (c + 1).toNat).any (fun e => e.1 = other)) := by
  constructor
  · intro h
    have hidx := Marked.current_index_fresh st h
    constructor
    · show ((Marked.total_and_cursor_list st.ar (Marked.arenaFuel st.ar)
          st.root).drop
          ((Marked.current_index_in_total_list st).1 + 1).toNat).any
          (fun e => e.1 = other) = _
      rw [hidx]
    · show ((Marked.total_and_cursor_list st.ar (Marked.arenaFuel st.ar)
          st.root).take
          ((Marked.current_index_in_total_list st).1 + 1).toNat).any
          (fun e => e.1 = other) = _
      rw [hidx]
  · intro c hc h0
    have hidx := Marked.current_index_cached st c hc h0
    constructor
    · show ((Marked.total_and_cursor_list st.ar (Marked.arenaFuel st.ar)
          st.root).drop
          ((Marked.current_index_in_total_list st).1 + 1).toNat).any
          (fun e => e.1 = other) = _
      rw [hidx]
    · show ((Marked.total_and_cursor_list st.ar (Marked.arenaFuel st.ar)
          st.root).take
          ((Marked.current_index_in_total_list st).1 + 1).toNat).any
          (fun e => e.1 = other) = _
      rw [hidx]

/-- Witness for the amended C6 theorem: with a truthy cached index 1, the
right-of-cursor query scans the entries after position 1 as cached. -/
theorem C6_appears_queries_follow_cache_witness :
    (Marked.appears_right_of_cursor
      ⟨Marked.sumTreeMvarMarked.ar, Marked.sumTreeMvarMarked.root, some 1⟩
      2).1 =
      ((Marked.total_and_cursor_list Marked.sumTreeMvarMarked.ar
          (Marked.arenaFuel Marked.sumTreeMvarMarked.ar)
          Marked.sumTreeMvarMarked.root).drop
        ((1 : Int) + 1).toNat).any (fun e => e.1 = 2) :=
  ((C6_appears_queries_follow_cache
    ⟨Marked.sumTreeMvarMarked.ar, Marked.sumTreeMvarMarked.root, some 1⟩
    2).2 1 rfl (by decide)).1



end Spec2Proof
